import Mathlib

/-!
Verification of the batch-based stock ledger of the `stockemc` repository.

The TypeScript source is shallowly embedded:

* JavaScript strings are modelled as `List Char` (`Str`), and the JS string
  comparison operators (`<`, `>=`, used on ISO `YYYY-MM-DD` dates) are
  modelled by the lexicographic order `strLt` / `strLe` on `List Char`.
  The source also compares dates via `new Date(s).getTime()`; for the
  well-formed `YYYY-MM-DD` strings the system generates, that order
  coincides with the lexicographic one, which is how it is modelled here.
* JS numbers holding quantities are modelled as `Int` (all quantity
  arithmetic in the source is integral).
* `Array.prototype.sort` (a stable sort with respect to the supplied
  comparator) is modelled by a structural stable insertion sort
  (`insertionSortB`); a stable sort's output is uniquely determined by the
  comparator and input order, so this is equivalent to any other stable
  sort.
* The fallible service operations (which `reject` a promise) are modelled
  as functions returning the (possibly unchanged) persisted collection
  together with an `Except` value: the collection component models what
  `localStorage` holds after the call.
* Presentation-only item fields (`category`, `minThreshold`, item-level
  `notes`, `originCountry`) play no role in any verified operation and are
  omitted from the embedded `StockItem`.
-/

namespace StockEMC

/-- JS strings, modelled as lists of characters. -/
abbrev Str : Type := List Char

/-- Embed a Lean string literal as a `Str`. -/
def strOf (s : String) : Str := s.data

/-- Lexicographic strict order on strings; models the JS `<` operator on
strings (compare code units left to right, a proper prefix is smaller). -/
def strLt : Str → Str → Bool
  | [], [] => false
  | [], _ :: _ => true
  | _ :: _, [] => false
  | a :: as, b :: bs => if a = b then strLt as bs else decide (a < b)

/-- `strLe a b` models the JS `a <= b` (equivalently `b >= a`), i.e.
`!(b < a)`. -/
def strLe (a b : Str) : Bool := !(strLt b a)

/-- Render an integer the way JS template literals render a number. -/
def intStr (i : Int) : Str := (toString i).data

/-! ## Stable sort model

`Array.prototype.sort` with a comparator `c` is required (ES2019+) to be a
stable sort: the result is ordered by the total preorder `le a b ↔ c a b ≤ 0`
with elements comparing equal kept in input order.  A stable sort's output
is uniquely determined by `le` and the input, so we model it by a
structural stable insertion sort. -/

/-- Insert `a` into `l`, before the first element `b` with `le a b`. -/
def orderedInsertB (le : α → α → Bool) (a : α) : List α → List α
  | [] => [a]
  | b :: l => if le a b then a :: b :: l else b :: orderedInsertB le a l

/-- Stable insertion sort with a boolean `le`; models `Array.prototype.sort`
with the corresponding comparator. -/
def insertionSortB (le : α → α → Bool) : List α → List α
  | [] => []
  | a :: l => orderedInsertB le a (insertionSortB le l)

/-! ## Data model (`src/types.ts`)

`Batch` and `StockItem` follow the interfaces in `src/types.ts`; optional
fields are `Option`s, quantities are `Int`. -/

/-- A single dated stock batch (`Batch` in `src/types.ts`). -/
structure Batch where
  id : Str
  quantity : Int
  expiryDate : Option Str
  supplier : Option Str
  dateAdded : Str
  notes : Option Str
deriving Repr, DecidableEq

/-- A stock item (`StockItem` in `src/types.ts`); presentation-only fields
(`category`, `minThreshold`, item `notes`, `originCountry`) omitted. -/
structure StockItem where
  id : Str
  name : Str
  unit : Str
  batches : List Batch
  lastUpdated : Str
deriving Repr, DecidableEq

/-- `getTotalQuantity` (`src/types.ts`): sum of `batch.quantity` via
`reduce((sum, batch) => sum + batch.quantity, 0)`. -/
def getTotalQuantity (item : StockItem) : Int :=
  item.batches.foldl (fun sum batch => sum + batch.quantity) 0

/-- JS truthiness of an optional string field (`undefined` and `""` are
falsy). -/
def truthyStr : Option Str → Bool
  | none => false
  | some s => !(s.isEmpty)

/-- `getSoonestExpiryDate` (`src/types.ts`): filter batches with
`quantity > 0 && expiryDate && expiryDate >= today`, map to the expiry
dates, sort ascending, take the first.  `today` (the current date string)
is an explicit parameter. -/
def getSoonestExpiryDate (today : Str) (item : StockItem) : Option Str :=
  (insertionSortB strLe
    ((item.batches.filter (fun batch =>
        decide (0 < batch.quantity) && truthyStr batch.expiryDate &&
          (match batch.expiryDate with
           | some e => strLe today e
           | none => false))).filterMap (fun batch => batch.expiryDate))).head?

/-! ## Depletion engine (`src/services/stockService.ts`,
`modifyItemBatchesForRelease`) -/

/-- Release strategy (`ReleaseStrategy` in `src/types.ts`). -/
inductive ReleaseStrategy
  | FEFO
  | FIFO
deriving Repr, DecidableEq

/-- The FEFO comparator of `modifyItemBatchesForRelease`, expressed as the
non-strict order `le a b ↔ comparator(a, b) ≤ 0`: batches with an expiry
date (a truthy `expiryDate`) order by expiry ascending with `dateAdded` as
tie-break; a dated batch precedes an undated one; two undated batches order
by `dateAdded`. -/
def fefoLe (a b : Batch) : Bool :=
  if truthyStr a.expiryDate && truthyStr b.expiryDate then
    (if a.expiryDate.getD [] = b.expiryDate.getD [] then
      strLe a.dateAdded b.dateAdded
    else strLt (a.expiryDate.getD []) (b.expiryDate.getD []))
  else if truthyStr a.expiryDate && !(truthyStr b.expiryDate) then true
  else if !(truthyStr a.expiryDate) && truthyStr b.expiryDate then false
  else strLe a.dateAdded b.dateAdded

/-- The FIFO comparator: `dateAdded` ascending only. -/
def fifoLe (a b : Batch) : Bool := strLe a.dateAdded b.dateAdded

/-- Sort key for `fefoLe`: (no-expiry flag, expiry date, date added),
ordered lexicographically by `keyLe`. -/
def fefoKey (b : Batch) : Bool × Str × Str :=
  (!(truthyStr b.expiryDate),
   (if truthyStr b.expiryDate then b.expiryDate.getD [] else []),
   b.dateAdded)

/-- Lexicographic order on `fefoKey` triples (`false < true` on the flag). -/
def keyLe (x y : Bool × Str × Str) : Bool :=
  if x.1 = y.1 then
    (if x.2.1 = y.2.1 then strLe x.2.2 y.2.2 else strLt x.2.1 y.2.1)
  else (!x.1 && y.1)

/-- The candidate batches of a release, in depletion order: filter
`quantity > 0`, then stable-sort with the strategy's comparator (from
`modifyItemBatchesForRelease`). -/
def sortBatches : ReleaseStrategy → List Batch → List Batch
  | ReleaseStrategy.FEFO, bs =>
    insertionSortB fefoLe (bs.filter (fun b => decide (0 < b.quantity)))
  | ReleaseStrategy.FIFO, bs =>
    insertionSortB fifoLe (bs.filter (fun b => decide (0 < b.quantity)))

/-- Replace the first element satisfying `p` by its image under `f`;
models an in-place mutation of the element `Array.prototype.find` /
`findIndex` locates. -/
def updateFirst (p : α → Bool) (f : α → α) : List α → List α
  | [] => []
  | x :: xs => if p x then f x :: xs else x :: updateFirst p f xs

/-- A caller-supplied audit-note formatter: receives the (already
decremented) batch, the quantity drained from it, and the item's unit. -/
abbrev NotesGen := Batch → Int → Str → Str

/-- The note update of the release loop:
`notes = notes ? notes + '\n' + noteText : noteText`. -/
def appendNote (old : Option Str) (t : Str) : Option Str :=
  match old with
  | some s => if s.isEmpty then some t else some (s ++ '\n' :: t)
  | none => some t

/-- The in-place mutation of one drained batch: decrement `quantity`, then
(with a formatter present) generate the audit line from the decremented
batch and append it to `notes`. -/
def applyRelease (gen : Option NotesGen) (unit : Str) (b : Batch)
    (q : Int) : Batch :=
  let dec : Batch := { b with quantity := b.quantity - q }
  match gen with
  | none => dec
  | some g => { dec with notes := appendNote dec.notes (g dec q unit) }

/-- The drain loop of `modifyItemBatchesForRelease`: walk the sorted
candidates; for each, locate the live batch by id in the item's batch
array, drain `min(quantity, remaining)`, record the allocation, and stop
once nothing remains. Returns (mutated batch array, allocations). -/
def releaseLoop (gen : Option NotesGen) (unit : Str) :
    List Batch → List Batch → Int → List Batch × List (Str × Int)
  | [], cur, _ => (cur, [])
  | sb :: rest, cur, remaining =>
    if remaining ≤ 0 then (cur, [])
    else
      match cur.find? (fun x => decide (x.id = sb.id)) with
      | none => releaseLoop gen unit rest cur remaining
      | some orig =>
        let can := min orig.quantity remaining
        let cur1 := updateFirst (fun x => decide (x.id = sb.id))
          (fun x => applyRelease gen unit x can) cur
        let r := releaseLoop gen unit rest cur1 (remaining - can)
        (r.1, (sb.id, can) :: r.2)

/-- Result payload of a successful release. -/
structure ReleaseResult where
  updatedItem : StockItem
  affectedBatches : List (Str × Int)
deriving Repr, DecidableEq

/-- The service's insufficient-stock rejection message. -/
def insufficientStockMsg (available requested : Int) : Str :=
  strOf "Not enough stock. Available: " ++ intStr available ++
    strOf ", Requested: " ++ intStr requested

/-- `stockService.modifyItemBatchesForRelease`: locate the item, sort the
positive-quantity batches by the strategy, reject if the requested quantity
exceeds their total (leaving the store untouched), otherwise drain them in
order, refresh `lastUpdated` and write back.  Returns the store contents
after the call together with the promise's outcome. -/
def modifyItemBatchesForRelease (storage : List StockItem) (itemId : Str)
    (quantityToRelease : Int) (gen : Option NotesGen)
    (strategy : ReleaseStrategy) (today : Str) :
    List StockItem × Except Str ReleaseResult :=
  match storage.find? (fun it => decide (it.id = itemId)) with
  | none => (storage, Except.error (strOf "Item not found for release"))
  | some item =>
    let sortedBatches := sortBatches strategy item.batches
    let totalAvailable := sortedBatches.foldl (fun sum b => sum + b.quantity) 0
    if totalAvailable < quantityToRelease then
      (storage,
       Except.error (insufficientStockMsg totalAvailable quantityToRelease))
    else
      let r := releaseLoop gen item.unit sortedBatches item.batches
        quantityToRelease
      let updated : StockItem :=
        { item with batches := r.1, lastUpdated := today }
      (updateFirst (fun it => decide (it.id = itemId)) (fun _ => updated)
        storage,
       Except.ok ⟨updated, r.2⟩)

/-! ## Batch additions (`stockService.addBatchToItem`) -/

/-- The batch payload handed to `addBatchToItem`
(`Omit<Batch, 'id' | 'dateAdded'>`). -/
structure BatchData where
  quantity : Int
  expiryDate : Option Str
  supplier : Option Str
  notes : Option Str
deriving Repr, DecidableEq

/-- JS `String.prototype.trim` on a char list (drop whitespace at both
ends). -/
def trimChars (cs : Str) : Str :=
  ((cs.dropWhile Char.isWhitespace).reverse.dropWhile Char.isWhitespace).reverse

/-- `stockService.addBatchToItem`: locate the item; unless the supplied
notes already start with a system tag (`[Bulk Add Stock`, `[Stock
Addition`, `[Initial Stock`), prepend a `[Stock Addition - today]: Added
qty unit. ` tag; create the batch with a fresh id and today's date;
append it to the item's batches; refresh `lastUpdated`; write back. -/
def addBatchToItem (storage : List StockItem) (itemId : Str)
    (batchData : BatchData) (itemUnit : Str) (today : Str) (newId : Str) :
    List StockItem × Except Str StockItem :=
  match storage.find? (fun it => decide (it.id = itemId)) with
  | none => (storage, Except.error (strOf "Item not found to add batch"))
  | some item =>
    let isSystemNote :=
      match batchData.notes with
      | some s =>
        (strOf "[Bulk Add Stock").isPrefixOf s ||
          (strOf "[Stock Addition").isPrefixOf s ||
          (strOf "[Initial Stock").isPrefixOf s
      | none => false
    let systemNote : Str :=
      if isSystemNote then []
      else strOf "[Stock Addition - " ++ today ++ strOf "]: Added " ++
        intStr batchData.quantity ++ strOf " " ++ itemUnit ++ strOf ". "
    let newBatch : Batch :=
      { id := newId
        quantity := batchData.quantity
        expiryDate := batchData.expiryDate
        supplier := batchData.supplier
        dateAdded := today
        notes := some (trimChars (systemNote ++ (batchData.notes.getD []))) }
    let updated : StockItem :=
      { item with batches := item.batches ++ [newBatch], lastUpdated := today }
    (updateFirst (fun it => decide (it.id = itemId)) (fun _ => updated)
      storage,
     Except.ok updated)

/-- `AddBatchDetails` of `useStockManagement`. -/
structure AddBatchDetails where
  quantityAdded : Int
  expiryDate : Option Str
  supplier : Option Str
  batchNotes : Option Str
deriving Repr, DecidableEq

/-- The hook `addStockBatchToItem` (`src/hooks/useStockManagement.ts`):
look the item up in the hook's state to obtain its unit, then call the
service; no validation of `quantityAdded` is performed. -/
def addStockBatchToItem (state storage : List StockItem) (itemId : Str)
    (details : AddBatchDetails) (today : Str) (newId : Str) :
    List StockItem × Except Str StockItem :=
  match state.find? (fun it => decide (it.id = itemId)) with
  | none =>
    (storage, Except.error (strOf "Item not found to add stock batch."))
  | some currentItem =>
    addBatchToItem storage itemId
      ⟨details.quantityAdded, details.expiryDate, details.supplier,
        details.batchNotes⟩
      currentItem.unit today newId

/-- `stockService.deleteItem`: keep every item whose id differs. -/
def deleteItem (storage : List StockItem) (id : Str) : List StockItem :=
  storage.filter (fun item => !(decide (item.id = id)))

/-! ## Spec-side descriptions of the depletion engine

These two definitions follow the specification's words (not the source);
they are compared with the source-derived definitions in the claim
theorems. -/

/-- The FEFO ordering as the spec words it: expiry ascending; a batch with
no `expiryDate` after every batch that has one; ties (equal expiry, or
both expiry-less) broken by `dateAdded` ascending. -/
def specFefoLe (a b : Batch) : Prop :=
  match a.expiryDate, b.expiryDate with
  | some ea, some eb =>
    strLt ea eb = true ∨ (ea = eb ∧ strLe a.dateAdded b.dateAdded = true)
  | some _, none => True
  | none, some _ => False
  | none, none => strLe a.dateAdded b.dateAdded = true

instance : DecidableRel specFefoLe := fun a b => by
  unfold specFefoLe
  cases a.expiryDate <;> cases b.expiryDate <;> infer_instance

/-- The depletion plan as the spec words it: iterate the sorted batches;
for each, drain `min(batch.quantity, remaining)`; record the allocation;
stop when `remaining == 0`. -/
def greedyPlan : List Batch → Int → List (Str × Int)
  | [], _ => []
  | b :: rest, remaining =>
    if remaining ≤ 0 then []
    else (b.id, min b.quantity remaining) ::
      greedyPlan rest (remaining - min b.quantity remaining)

/-- One batch of the final array is either untouched or the result of a
single drain of some quantity `q ≤` its pre-operation quantity, and only
batches whose id occurs among the processed candidates are touched. -/
def touchedOnce (gen : Option NotesGen) (unit : Str) (ids : List Str)
    (b b' : Batch) : Prop :=
  b' = b ∨ (b.id ∈ ids ∧
    ∃ q : Int, q ≤ b.quantity ∧ b' = applyRelease gen unit b q)

/-! ## Example data for concrete evaluations -/

/-- Example batch without an expiry date (qty 10). -/
def exB1 : Batch := ⟨strOf "b1", 10, none, none, strOf "2025-01-10", none⟩

/-- Example batch expiring 2025-03-01 (qty 10), added after `exB1`. -/
def exB2 : Batch :=
  ⟨strOf "b2", 10, some (strOf "2025-03-01"), none, strOf "2025-01-20", none⟩

/-- Example item holding `exB1` and `exB2`. -/
def exItem : StockItem :=
  ⟨strOf "item1", strOf "Gauze Swabs", strOf "packs", [exB1, exB2],
   strOf "2025-01-20"⟩

/-- `exItem` after a FEFO release of 15 (no notes generator). -/
def exItemAfter : StockItem :=
  ⟨strOf "item1", strOf "Gauze Swabs", strOf "packs",
   [⟨strOf "b1", 5, none, none, strOf "2025-01-10", none⟩,
    ⟨strOf "b2", 0, some (strOf "2025-03-01"), none, strOf "2025-01-20",
     none⟩],
   strOf "2025-06-01"⟩

/-- A concrete notes formatter for witnesses. -/
def exGen : NotesGen := fun _ _ _ => strOf "released"

/-- `exItem` after a FEFO release of 15 with formatter `exGen`. -/
def exItemAfterG : StockItem :=
  ⟨strOf "item1", strOf "Gauze Swabs", strOf "packs",
   [⟨strOf "b1", 5, none, none, strOf "2025-01-10",
     some (strOf "released")⟩,
    ⟨strOf "b2", 0, some (strOf "2025-03-01"), none, strOf "2025-01-20",
     some (strOf "released")⟩],
   strOf "2025-06-01"⟩

/-- A one-batch item used for the add-batch evaluations. -/
def c4Before : StockItem :=
  ⟨strOf "A", strOf "Item A", strOf "box",
   [⟨strOf "a1", 10, none, none, strOf "2025-01-01", none⟩],
   strOf "2025-01-01"⟩

/-! ## Bulk release (`useStockManagement.processBulkStockRelease`)

The hook validates each entry against its state snapshot, calls the
service for valid entries (threading the persisted collection), records a
per-entry error on any failure, and keeps going.  `state` is the hook's
(fixed) item snapshot; `storage` is the persisted collection. -/

/-- One entry of the bulk release payload. -/
structure BulkEntry where
  itemId : Str
  quantityReleased : Int
deriving Repr, DecidableEq

/-- A recorded per-entry error. -/
structure BulkError where
  itemId : Str
  name : Str
  error : Str
deriving Repr, DecidableEq

/-- A successfully processed entry. -/
structure BulkProcessed where
  item : StockItem
  quantityReleased : Int
  affectedBatches : List (Str × Int)
deriving Repr, DecidableEq

/-- The hook's aggregate result (voucher id and common details omitted:
they are opaque payload data). -/
structure BulkResult where
  success : Bool
  processedItems : List BulkProcessed
  errors : List BulkError
deriving Repr, DecidableEq

/-- Intermediate state of the bulk loop. -/
structure BulkLoopState where
  processedItems : List BulkProcessed
  errors : List BulkError
  storage : List StockItem
  overallSuccess : Bool
deriving Repr, DecidableEq

/-- The hook's own insufficient-stock message. -/
def hookInsufficientMsg (available : Int) : Str :=
  strOf "Not enough stock. Available: " ++ intStr available

/-- The `releaseOpNotes` closure of `processBulkStockRelease`. -/
def bulkReleaseNoteGen (releaseDateStr voucherId releasedTo : Str)
    (reason : Option Str) : NotesGen := fun batch qty unit =>
  strOf "[Bulk Stock Release - " ++ releaseDateStr ++
    strOf " | Voucher: " ++ voucherId ++ strOf "]: Released " ++
    intStr qty ++ strOf " " ++ unit ++ strOf " to \"" ++ releasedTo ++
    strOf "\" from batch ID " ++ batch.id ++ strOf "." ++
    (match reason with
     | some r => strOf " Reason: " ++ r ++ strOf "."
     | none => [])

/-- The entry loop of `processBulkStockRelease`: validate each entry
against the state snapshot (item present, quantity positive, quantity at
most the total), call the service when valid, record a per-entry error
otherwise, and continue with the remaining entries either way. -/
def bulkLoop (state : List StockItem) (gen : NotesGen) (today : Str) :
    List BulkEntry → List StockItem → BulkLoopState
  | [], storage => ⟨[], [], storage, true⟩
  | e :: rest, storage =>
    match state.find? (fun it => decide (it.id = e.itemId)) with
    | none =>
      let r := bulkLoop state gen today rest storage
      ⟨r.processedItems,
       ⟨e.itemId, strOf "Unknown Item", strOf "Item not found."⟩ :: r.errors,
       r.storage, false⟩
    | some currentItem =>
      if e.quantityReleased ≤ 0 then
        let r := bulkLoop state gen today rest storage
        ⟨r.processedItems,
         ⟨e.itemId, currentItem.name, strOf "Quantity must be > 0."⟩ ::
           r.errors,
         r.storage, false⟩
      else if getTotalQuantity currentItem < e.quantityReleased then
        let r := bulkLoop state gen today rest storage
        ⟨r.processedItems,
         ⟨e.itemId, currentItem.name,
          hookInsufficientMsg (getTotalQuantity currentItem)⟩ :: r.errors,
         r.storage, false⟩
      else
        match modifyItemBatchesForRelease storage e.itemId
            e.quantityReleased (some gen) ReleaseStrategy.FEFO today with
        | (storage1, Except.ok res) =>
          let r := bulkLoop state gen today rest storage1
          ⟨⟨res.updatedItem, e.quantityReleased, res.affectedBatches⟩ ::
             r.processedItems,
           r.errors, r.storage, r.overallSuccess⟩
        | (storage1, Except.error msg) =>
          let r := bulkLoop state gen today rest storage1
          ⟨r.processedItems,
           ⟨e.itemId, currentItem.name, strOf "API Error: " ++ msg⟩ ::
             r.errors,
           r.storage, false⟩

/-- `processBulkStockRelease`: run the loop, then set
`success = overallSuccess && processedItems.length > 0`. -/
def processBulkStockRelease (state storage : List StockItem)
    (entries : List BulkEntry) (gen : NotesGen) (today : Str) :
    BulkResult × List StockItem :=
  let r := bulkLoop state gen today entries storage
  (⟨r.overallSuccess && decide (0 < r.processedItems.length),
    r.processedItems, r.errors⟩,
   r.storage)

/-- Bulk release example: item A with 7 in one batch. -/
def c7A : StockItem :=
  ⟨strOf "A", strOf "Item A", strOf "box",
   [⟨strOf "a1", 7, none, none, strOf "2025-01-01", none⟩],
   strOf "2025-01-01"⟩

/-- Bulk release example: item B with 10 in one batch. -/
def c7B : StockItem :=
  ⟨strOf "B", strOf "Item B", strOf "pcs",
   [⟨strOf "b1", 10, none, none, strOf "2025-01-02", none⟩],
   strOf "2025-01-02"⟩

/-- Bulk release example store. -/
def c7store : List StockItem := [c7A, c7B]

/-- Bulk release example entries: 5 of A, 999999 of B. -/
def c7entries : List BulkEntry :=
  [⟨strOf "A", 5⟩, ⟨strOf "B", 999999⟩]

/-- Bulk release example notes formatter (the hook's closure with concrete
common details). -/
def c7gen : NotesGen :=
  bulkReleaseNoteGen (strOf "2025-06-01") (strOf "VOUCHER-1")
    (strOf "Ward 3") none

/-! ## Movement reconstruction
(`src/components/StockAnalysisView.tsx`, `handleAnalyzeStockMovement`)

The view splits every batch's notes into lines and matches each line
against six tagged-line regexes of the form
`\[<tag> - (\d\x7b4\x7d-\d\x7b2\x7d-\d\x7b2\x7d)\]: <verb> (\d+)` (the bulk-release
tag allows extra text between the date and `]:`).  JS `String.match`
searches anywhere in the line and returns the leftmost match; `parseInt`
reads the maximal digit run.  All six regexes carry the `i` flag, so
literal characters match case-insensitively: in non-unicode mode,
ECMAScript `Canonicalize` makes an ASCII pattern character match an input
character exactly when they are equal or are the same ASCII letter in
different cases (a non-ASCII input whose upper-case form is ASCII, such as
the long s, is left unchanged and does not match).  `chMatch` embeds that
comparison; every literal in the six patterns is ASCII. -/

/-- `97 ≤ c ≤ 122`: an ASCII lowercase letter. -/
def isLowerA (c : Char) : Bool :=
  decide (97 ≤ c.toNat ∧ c.toNat ≤ 122)

/-- `65 ≤ c ≤ 90`: an ASCII uppercase letter. -/
def isUpperA (c : Char) : Bool :=
  decide (65 ≤ c.toNat ∧ c.toNat ≤ 90)

/-- Case-insensitive character match of the `i`-flag regex literals:
equal, or the same ASCII letter in different cases. -/
def chMatch (p c : Char) : Bool :=
  decide (p = c) ||
    (isLowerA p && isUpperA c && decide (p.toNat = c.toNat + 32)) ||
    (isUpperA p && isLowerA c && decide (p.toNat + 32 = c.toNat))

/-- Match a literal prefix case-insensitively (the regexes' `i` flag),
returning the remainder. -/
def matchLit : Str → Str → Option Str
  | [], cs => some cs
  | _ :: _, [] => none
  | p :: ps, c :: cs => if chMatch p c then matchLit ps cs else none

/-- Collapse a digit to `'0'`; other characters stay themselves. -/
def digitMask (c : Char) : Char := if c.isDigit then '0' else c

/-- `\d\x7b4\x7d-\d\x7b2\x7d-\d\x7b2\x7d` on the whole string. -/
def isDateShape (cs : Str) : Bool :=
  decide (cs.map digitMask = strOf "0000-00-00")

/-- Match a date of shape `\d\x7b4\x7d-\d\x7b2\x7d-\d\x7b2\x7d`, returning
it and the remainder. -/
def matchDate (cs : Str) : Option (Str × Str) :=
  if isDateShape (cs.take 10) then some (cs.take 10, cs.drop 10) else none

/-- `parseInt` on a digit run. -/
def digitsToNat (ds : Str) : Nat :=
  ds.foldl (fun n c => n * 10 + (c.toNat - '0'.toNat)) 0

/-- Take the maximal leading digit run (`(\d+)`); fails if empty. -/
def takeDigits1 (cs : Str) : Option (Nat × Str) :=
  if (cs.takeWhile Char.isDigit).isEmpty then none
  else some (digitsToNat (cs.takeWhile Char.isDigit),
    cs.dropWhile Char.isDigit)

/-- Try `\[<tag> - (date)\]: <verb> (\d+)` at the current position. -/
def tryTag (tag verb : Str) (cs : Str) : Option (Str × Nat) :=
  (matchLit ('[' :: (tag ++ strOf " - ")) cs).bind fun r1 =>
    (matchDate r1).bind fun dr =>
      (matchLit (strOf "]: " ++ (verb ++ strOf " ")) dr.2).bind fun r3 =>
        (takeDigits1 r3).map fun qr => (dr.1, qr.1)

/-- Leftmost match of `\[<tag> - (date)\]: <verb> (\d+)` anywhere in the
line. -/
def searchTag (tag verb : Str) : Str → Option (Str × Nat)
  | [] => none
  | c :: rest =>
    match tryTag tag verb (c :: rest) with
    | some r => some r
    | none => searchTag tag verb rest

/-- Leftmost position where the literal is followed by at least one digit
(models the lazy gap `.*?` of the bulk-release regex). -/
def findVerbQty (lit : Str) : Str → Option Nat
  | [] => none
  | c :: rest =>
    match (matchLit lit (c :: rest)).bind
        (fun r => (takeDigits1 r).map Prod.fst) with
    | some n => some n
    | none => findVerbQty lit rest

/-- Try the bulk-release tag
`\[Bulk Stock Release - (date).*?\]: Released (\d+)` at the current
position. -/
def tryBulkReleaseTag (cs : Str) : Option (Str × Nat) :=
  (matchLit (strOf "[Bulk Stock Release - ") cs).bind fun r1 =>
    (matchDate r1).bind fun dr =>
      (findVerbQty (strOf "]: Released ") dr.2).map fun n => (dr.1, n)

/-- Leftmost match of the bulk-release tag anywhere in the line. -/
def searchBulkRelease : Str → Option (Str × Nat)
  | [] => none
  | c :: rest =>
    match tryBulkReleaseTag (c :: rest) with
    | some r => some r
    | none => searchBulkRelease rest

/-- First non-`none` of two options (models `a || b` on match results). -/
def firstSome (a b : Option α) : Option α :=
  match a with
  | some x => some x
  | none => b

/-- Classify one note line: the three stock-in patterns are tried first
(Initial Stock, Stock Addition, Bulk Add Stock — and on a hit the line is
done), then the three stock-out patterns (Stock Out, Stock Release, Bulk
Stock Release).  Returns (isIn, embedded date, quantity). -/
def lineEvent (line : Str) : Option (Bool × Str × Nat) :=
  match firstSome (searchTag (strOf "Initial Stock") (strOf "Added") line)
      (firstSome (searchTag (strOf "Stock Addition") (strOf "Added") line)
        (searchTag (strOf "Bulk Add Stock") (strOf "Added") line)) with
  | some r => some (true, r)
  | none =>
    match firstSome (searchTag (strOf "Stock Out") (strOf "Consumed") line)
        (firstSome
          (searchTag (strOf "Stock Release") (strOf "Released") line)
          (searchBulkRelease line)) with
    | some r => some (false, r)
    | none => none

/-- `notes.split('\n')` accumulator. -/
def splitNLAux : Str → Str → List Str
  | [], acc => [acc.reverse]
  | c :: rest, acc =>
    if c = '\n' then acc.reverse :: splitNLAux rest []
    else splitNLAux rest (c :: acc)

/-- `notes.split('\n')`. -/
def splitNL (cs : Str) : List Str := splitNLAux cs []

/-- The note lines of a batch (`if (batch.notes)` guards truthiness). -/
def batchNoteLines (b : Batch) : List Str :=
  match b.notes with
  | none => []
  | some s => if s.isEmpty then [] else splitNL s

/-- All tagged events parsed from a batch's notes. -/
def batchEvents (b : Batch) : List (Bool × Str × Nat) :=
  (batchNoteLines b).filterMap lineEvent

/-- The date-range check (inclusive calendar range). -/
def inRange (startD endD d : Str) : Bool := strLe startD d && strLe d endD

/-- Quantities of the stock-in events of a batch inside the range. -/
def batchInEvents (startD endD : Str) (b : Batch) : List Nat :=
  (batchEvents b).filterMap (fun ev =>
    if ev.1 && inRange startD endD ev.2.1 then some ev.2.2 else none)

/-- Quantities of the stock-out events of a batch inside the range. -/
def batchOutEvents (startD endD : Str) (b : Batch) : List Nat :=
  (batchEvents b).filterMap (fun ev =>
    if !ev.1 && inRange startD endD ev.2.1 then some ev.2.2 else none)

/-- Per-item stock-in quantity over the range. -/
def itemInQty (startD endD : Str) (item : StockItem) : Nat :=
  (item.batches.map (fun b => (batchInEvents startD endD b).sum)).sum

/-- Per-item stock-in transaction count over the range. -/
def itemInTxns (startD endD : Str) (item : StockItem) : Nat :=
  (item.batches.map (fun b => (batchInEvents startD endD b).length)).sum

/-- Overall `totalStockInQuantity`. -/
def overallStockInQty (startD endD : Str) (items : List StockItem) : Nat :=
  (items.map (itemInQty startD endD)).sum

/-- Overall `stockInTransactions`. -/
def overallStockInTxns (startD endD : Str) (items : List StockItem) : Nat :=
  (items.map (itemInTxns startD endD)).sum

/-- The per-item breakdown's `quantityIn` for a given item id (the view's
map accumulates per `item.id`). -/
def breakdownInQty (startD endD : Str) (items : List StockItem)
    (iid : Str) : Nat :=
  ((items.filter (fun it => decide (it.id = iid))).map
    (itemInQty startD endD)).sum

/-- The batch `addBatchToItem` creates for an un-tagged (absent) user
note. -/
def addedBatch (q : Int) (expiry supplier : Option Str)
    (unit today newId : Str) : Batch :=
  ⟨newId, q, expiry, supplier, today,
   some (trimChars (strOf "[Stock Addition - " ++ today ++
     strOf "]: Added " ++ intStr q ++ strOf " " ++ unit ++ strOf ". "))⟩

/-- The item after `addBatchToItem` appends the new batch. -/
def addedItem (item : StockItem) (q : Int) (expiry supplier : Option Str)
    (unit today newId : Str) : StockItem :=
  { item with
    batches := item.batches ++ [addedBatch q expiry supplier unit today newId]
    lastUpdated := today }

/-- `c4Before` after the witness add-batch of 15. -/
def c8After : StockItem :=
  ⟨strOf "A", strOf "Item A", strOf "box",
   [⟨strOf "a1", 10, none, none, strOf "2025-01-01", none⟩,
    ⟨strOf "a2", 15, none, none, strOf "2025-06-01",
     some (strOf "[Stock Addition - 2025-06-01]: Added 15 box.")⟩],
   strOf "2025-06-01"⟩


/-! ## Theorems -/

theorem strLt_irrefl (s : Str) : strLt s s = false := by
  induction s with
  | nil => rfl
  | cons a as ih => simp [strLt, ih]

theorem strLt_asymm : ∀ {a b : Str}, strLt a b = true → strLt b a = false
  | [], [], h => by simp [strLt] at h
  | [], _ :: _, _ => rfl
  | _ :: _, [], h => by simp [strLt] at h
  | a :: as, b :: bs, h => by
    by_cases hab : a = b
    · subst hab
      simp only [strLt, if_pos rfl] at h ⊢
      exact strLt_asymm h
    · simp only [strLt, if_neg hab] at h
      have hlt : a < b := of_decide_eq_true h
      have hba : ¬ (b < a) := lt_asymm hlt
      have hne : b ≠ a := fun e => hab e.symm
      simp only [strLt, if_neg hne]
      exact decide_eq_false hba

theorem strLt_trans : ∀ {a b c : Str}, strLt a b = true → strLt b c = true →
    strLt a c = true
  | [], _, _ :: _, _, _ => rfl
  | [], _ :: _, [], _, h₂ => by simp [strLt] at h₂
  | [], [], [], h₁, _ => by simp [strLt] at h₁
  | _ :: _, [], _, h₁, _ => by simp [strLt] at h₁
  | _ :: _, _ :: _, [], _, h₂ => by simp [strLt] at h₂
  | a :: as, b :: bs, c :: cs, h₁, h₂ => by
    by_cases hab : a = b <;> by_cases hbc : b = c
    · subst hab; subst hbc
      simp only [strLt, if_pos rfl] at h₁ h₂ ⊢
      exact strLt_trans h₁ h₂
    · subst hab
      simp only [strLt, if_pos rfl, if_neg hbc] at h₁ h₂ ⊢
      exact h₂
    · subst hbc
      simp only [strLt, if_pos rfl, if_neg hab] at h₁ h₂ ⊢
      exact h₁
    · simp only [strLt, if_neg hab, if_neg hbc] at h₁ h₂
      have h₁' : a < b := of_decide_eq_true h₁
      have h₂' : b < c := of_decide_eq_true h₂
      have hac : a < c := lt_trans h₁' h₂'
      have hne : a ≠ c := ne_of_lt hac
      simp only [strLt, if_neg hne]
      exact decide_eq_true hac

theorem strLt_connex : ∀ {a b : Str}, a ≠ b →
    strLt a b = true ∨ strLt b a = true
  | [], [], h => absurd rfl h
  | [], _ :: _, _ => Or.inl rfl
  | _ :: _, [], _ => Or.inr rfl
  | a :: as, b :: bs, h => by
    by_cases hab : a = b
    · subst hab
      have : as ≠ bs := fun he => h (by rw [he])
      rcases strLt_connex this with h' | h'
      · exact Or.inl (by simpa [strLt] using h')
      · exact Or.inr (by simpa [strLt] using h')
    · rcases lt_or_gt_of_ne hab with h' | h'
      · refine Or.inl ?_
        simp only [strLt, if_neg hab]
        exact decide_eq_true h'
      · refine Or.inr ?_
        have hne : b ≠ a := fun e => hab e.symm
        simp only [strLt, if_neg hne]
        exact decide_eq_true h'

theorem strLe_refl (s : Str) : strLe s s = true := by
  simp [strLe, strLt_irrefl]

theorem strLe_total (a b : Str) : (strLe a b || strLe b a) = true := by
  by_cases h : strLt b a = true
  · simp [strLe, strLt_asymm h]
  · simp [strLe, h]

theorem strLe_trans {a b c : Str} (h₁ : strLe a b = true)
    (h₂ : strLe b c = true) : strLe a c = true := by
  simp only [strLe, Bool.not_eq_true'] at h₁ h₂ ⊢
  by_contra hc
  have hca : strLt c a = true := by
    cases h : strLt c a
    · exact absurd h hc
    · rfl
  by_cases hbc : b = c
  · subst hbc
    simp [h₁] at hca
  · rcases strLt_connex hbc with h' | h'
    · have hba : strLt b a = true := strLt_trans h' hca
      simp [h₁] at hba
    · simp [h₂] at h'

theorem strLe_of_strLt {a b : Str} (h : strLt a b = true) : strLe a b = true := by
  simp [strLe, strLt_asymm h]

theorem strLt_of_not_strLe {a b : Str} (h : ¬ strLe a b = true) :
    strLt b a = true := by
  cases hba : strLt b a
  · exact absurd (by simp [strLe, hba]) h
  · rfl

theorem perm_orderedInsertB (le : α → α → Bool) (a : α) :
    ∀ l : List α, List.Perm (orderedInsertB le a l) (a :: l)
  | [] => List.Perm.refl _
  | b :: l => by
    by_cases h : le a b = true
    · simp [orderedInsertB, h]
    · simp only [orderedInsertB, if_neg h]
      exact ((perm_orderedInsertB le a l).cons b).trans (List.Perm.swap a b l)

theorem perm_insertionSortB (le : α → α → Bool) :
    ∀ l : List α, List.Perm (insertionSortB le l) l
  | [] => List.Perm.refl _
  | a :: l =>
    (perm_orderedInsertB le a _).trans ((perm_insertionSortB le l).cons a)

theorem mem_insertionSortB {le : α → α → Bool} {l : List α} {a : α} :
    a ∈ insertionSortB le l ↔ a ∈ l :=
  (perm_insertionSortB le l).mem_iff

theorem pairwise_orderedInsertB (le : α → α → Bool)
    (htotal : ∀ a b, (le a b || le b a) = true)
    (htrans : ∀ a b c, le a b = true → le b c = true → le a c = true)
    (a : α) : ∀ {l : List α}, l.Pairwise (fun x y => le x y = true) →
      (orderedInsertB le a l).Pairwise (fun x y => le x y = true)
  | [], _ => by simp [orderedInsertB]
  | b :: l, hp => by
    rcases List.pairwise_cons.mp hp with ⟨hb, hl⟩
    by_cases h : le a b = true
    · simp only [orderedInsertB, if_pos h]
      refine List.pairwise_cons.mpr ⟨?_, hp⟩
      intro x hx
      rcases List.mem_cons.mp hx with rfl | hx
      · exact h
      · exact htrans a b x h (hb x hx)
    · simp only [orderedInsertB, if_neg h]
      have hba : le b a = true := by
        rcases Bool.or_eq_true_iff.mp (htotal a b) with h' | h'
        · exact absurd h' h
        · exact h'
      refine List.pairwise_cons.mpr ⟨?_, pairwise_orderedInsertB le htotal htrans a hl⟩
      intro x hx
      have := (perm_orderedInsertB le a l).mem_iff.mp hx
      rcases List.mem_cons.mp this with rfl | hx'
      · exact hba
      · exact hb x hx'

theorem pairwise_insertionSortB (le : α → α → Bool)
    (htotal : ∀ a b, (le a b || le b a) = true)
    (htrans : ∀ a b c, le a b = true → le b c = true → le a c = true) :
    ∀ l : List α, (insertionSortB le l).Pairwise (fun x y => le x y = true)
  | [] => List.Pairwise.nil
  | a :: l => pairwise_orderedInsertB le htotal htrans a
      (pairwise_insertionSortB le htotal htrans l)

theorem fefoLe_eq_keyLe (a b : Batch) :
    fefoLe a b = keyLe (fefoKey a) (fefoKey b) := by
  cases ha : truthyStr a.expiryDate <;> cases hb : truthyStr b.expiryDate <;>
    simp [fefoLe, keyLe, fefoKey, ha, hb]

theorem keyLe_total (x y : Bool × Str × Str) :
    (keyLe x y || keyLe y x) = true := by
  obtain ⟨r₁, e₁, d₁⟩ := x
  obtain ⟨r₂, e₂, d₂⟩ := y
  by_cases hr : r₁ = r₂
  · subst hr
    by_cases he : e₁ = e₂
    · subst he
      simpa [keyLe] using strLe_total d₁ d₂
    · have he' : e₂ ≠ e₁ := fun e => he e.symm
      rcases strLt_connex he with h | h <;> simp [keyLe, he, he', h]
  · have hr' : r₂ ≠ r₁ := fun e => hr e.symm
    cases r₁ <;> cases r₂ <;> simp_all [keyLe]

theorem keyLe_trans (x y z : Bool × Str × Str) (h₁ : keyLe x y = true)
    (h₂ : keyLe y z = true) : keyLe x z = true := by
  obtain ⟨r₁, e₁, d₁⟩ := x
  obtain ⟨r₂, e₂, d₂⟩ := y
  obtain ⟨r₃, e₃, d₃⟩ := z
  simp only [keyLe] at h₁ h₂ ⊢
  by_cases h12 : r₁ = r₂ <;> by_cases h23 : r₂ = r₃
  · rw [if_pos h12] at h₁
    rw [if_pos h23] at h₂
    rw [if_pos (h12.trans h23)]
    by_cases e12 : e₁ = e₂ <;> by_cases e23 : e₂ = e₃
    · subst e12; subst e23
      rw [if_pos rfl] at h₁ h₂ ⊢
      exact strLe_trans h₁ h₂
    · subst e12
      rw [if_pos rfl] at h₁
      rw [if_neg e23] at h₂ ⊢
      exact h₂
    · subst e23
      rw [if_neg e12] at h₁ ⊢
      exact h₁
    · rw [if_neg e12] at h₁
      rw [if_neg e23] at h₂
      have h13 : strLt e₁ e₃ = true := strLt_trans h₁ h₂
      have hne : e₁ ≠ e₃ := by
        intro he
        subst he
        simp [strLt_asymm h₁] at h₂
      rw [if_neg hne]
      exact h13
  · rw [if_neg (fun h => h23 (h12.symm.trans h))]
    rw [if_neg h23] at h₂
    rw [← h12] at h₂
    exact h₂
  · rw [if_neg (fun h => h12 (h.trans h23.symm))]
    rw [if_neg h12] at h₁
    rw [h23] at h₁
    exact h₁
  · rw [if_neg h12] at h₁
    rw [if_neg h23] at h₂
    cases r₁ <;> cases r₂ <;> simp_all

theorem fefoLe_total (a b : Batch) : (fefoLe a b || fefoLe b a) = true := by
  rw [fefoLe_eq_keyLe, fefoLe_eq_keyLe]
  exact keyLe_total _ _

theorem fefoLe_trans (a b c : Batch) (h₁ : fefoLe a b = true)
    (h₂ : fefoLe b c = true) : fefoLe a c = true := by
  rw [fefoLe_eq_keyLe] at h₁ h₂ ⊢
  exact keyLe_trans _ _ _ h₁ h₂

theorem fifoLe_total (a b : Batch) : (fifoLe a b || fifoLe b a) = true :=
  strLe_total _ _

theorem fifoLe_trans (a b c : Batch) (h₁ : fifoLe a b = true)
    (h₂ : fifoLe b c = true) : fifoLe a c = true :=
  strLe_trans h₁ h₂

theorem find?_updateFirst {p q : α → Bool} {f : α → α}
    (hpq : ∀ x, p x = true → q x = false ∧ q (f x) = false) :
    ∀ l : List α, (updateFirst p f l).find? q = l.find? q
  | [] => rfl
  | x :: xs => by
    by_cases hx : p x = true
    · rcases hpq x hx with ⟨h₁, h₂⟩
      simp [updateFirst, hx, List.find?, h₁, h₂]
    · simp only [updateFirst, if_neg hx]
      cases hq : q x <;>
        simp [List.find?, hq, find?_updateFirst hpq xs]

theorem forall₂_updateFirst (p : α → Bool) (f : α → α) :
    ∀ l : List α, List.Forall₂
      (fun x y => y = x ∨ (p x = true ∧ y = f x)) l (updateFirst p f l)
  | [] => List.Forall₂.nil
  | x :: xs => by
    by_cases hx : p x = true
    · simp only [updateFirst, if_pos hx]
      exact List.Forall₂.cons (Or.inr ⟨hx, rfl⟩)
        (List.forall₂_same.mpr (fun a _ => Or.inl rfl))
    · simp only [updateFirst, if_neg hx]
      exact List.Forall₂.cons (Or.inl rfl) (forall₂_updateFirst p f xs)

theorem fefoLe_imp_specFefoLe {a b : Batch} (hwa : a.expiryDate ≠ some [])
    (hwb : b.expiryDate ≠ some []) (h : fefoLe a b = true) : specFefoLe a b := by
  rcases hea : a.expiryDate with _ | ea <;> rcases heb : b.expiryDate with _ | eb
  · simpa [specFefoLe, hea, heb, fefoLe, truthyStr] using h
  · have hne : ¬ eb.isEmpty = true := by
      intro he
      exact hwb (by rw [heb, List.isEmpty_iff.mp he])
    simp [fefoLe, hea, heb, truthyStr, hne] at h
  · simp [specFefoLe, hea, heb]
  · have hnea : ¬ ea.isEmpty = true := by
      intro he
      exact hwa (by rw [hea, List.isEmpty_iff.mp he])
    have hneb : ¬ eb.isEmpty = true := by
      intro he
      exact hwb (by rw [heb, List.isEmpty_iff.mp he])
    simp only [fefoLe, hea, heb, truthyStr, Option.getD_some, hnea, hneb,
      Bool.not_eq_true, Bool.not_false, Bool.and_self, if_true] at h
    simp only [specFefoLe, hea, heb]
    by_cases he : ea = eb
    · rw [if_pos he] at h
      exact Or.inr ⟨he, h⟩
    · rw [if_neg he] at h
      exact Or.inl h

/-! ## The release loop refines the spec's greedy plan -/

theorem applyRelease_id (gen : Option NotesGen) (unit : Str) (b : Batch)
    (q : Int) : (applyRelease gen unit b q).id = b.id := by
  cases gen <;> rfl

theorem find?_id_eq_self {l : List Batch} {b : Batch}
    (hnd : (l.map Batch.id).Nodup) (hb : b ∈ l) :
    l.find? (fun x => decide (x.id = b.id)) = some b := by
  induction l with
  | nil => exact absurd hb (List.not_mem_nil b)
  | cons x xs ih =>
    rw [List.map_cons, List.nodup_cons] at hnd
    rcases List.mem_cons.mp hb with rfl | hb'
    · simp [List.find?]
    · have hne : ¬ (x.id = b.id) := by
        intro he
        exact hnd.1 (he ▸ List.mem_map_of_mem Batch.id hb')
      rw [List.find?_cons_of_neg _ (by simpa using hne)]
      exact ih hnd.2 hb'

theorem eq_of_id_eq {l : List Batch} (hnd : (l.map Batch.id).Nodup)
    {x y : Batch} (hx : x ∈ l) (hy : y ∈ l) (hid : x.id = y.id) : x = y :=
  List.inj_on_of_nodup_map hnd hx hy hid

theorem forall₂_mem_right {R : α → β → Prop} :
    ∀ {l : List α} {l' : List β}, List.Forall₂ R l l' →
      ∀ y ∈ l', ∃ x ∈ l, R x y := by
  intro l l' h
  induction h with
  | nil => intro y hy; exact absurd hy (List.not_mem_nil y)
  | cons hr _ ih =>
    intro y hy
    rcases List.mem_cons.mp hy with rfl | hy'
    · exact ⟨_, List.mem_cons_self _ _, hr⟩
    · rcases ih y hy' with ⟨x, hx, hxy⟩
      exact ⟨x, List.mem_cons_of_mem _ hx, hxy⟩

theorem forall₂_comp_mem {R S T : α → α → Prop} :
    ∀ {l₁ l₂ l₃ : List α},
      (∀ a ∈ l₁, ∀ b c, R a b → S b c → T a c) →
      List.Forall₂ R l₁ l₂ → List.Forall₂ S l₂ l₃ →
      List.Forall₂ T l₁ l₃ := by
  intro l₁ l₂ l₃ hcomp h₁
  induction h₁ generalizing l₃ with
  | nil =>
    intro h₂
    cases h₂
    exact List.Forall₂.nil
  | @cons a b as bs hr _ ih =>
    intro h₂
    cases h₂ with
    | cons hs htail =>
      exact List.Forall₂.cons
        (hcomp a (List.mem_cons_self _ _) _ _ hr hs)
        (ih (fun x hx => hcomp x (List.mem_cons_of_mem _ hx)) htail)

theorem map_id_updateFirst {p : Batch → Bool} {f : Batch → Batch}
    (hid : ∀ x, p x = true → (f x).id = x.id) :
    ∀ l : List Batch, (updateFirst p f l).map Batch.id = l.map Batch.id
  | [] => rfl
  | x :: xs => by
    by_cases hx : p x = true
    · simp [updateFirst, hx, hid x hx]
    · simp [updateFirst, hx, map_id_updateFirst hid xs]

theorem releaseLoop_spec (gen : Option NotesGen) (unit : Str) :
    ∀ (sorted cur : List Batch) (remaining : Int),
      (cur.map Batch.id).Nodup →
      ((sorted.map Batch.id).Nodup) →
      (∀ sb ∈ sorted, cur.find? (fun x => decide (x.id = sb.id)) = some sb) →
      (releaseLoop gen unit sorted cur remaining).2 =
          greedyPlan sorted remaining ∧
        List.Forall₂ (touchedOnce gen unit (sorted.map Batch.id)) cur
          (releaseLoop gen unit sorted cur remaining).1
  | [], cur, remaining, _, _, _ => by
    refine ⟨rfl, ?_⟩
    exact List.forall₂_same.mpr (fun x _ => Or.inl rfl)
  | sb :: rest, cur, remaining, hndc, hnds, hfind => by
    by_cases hrem : remaining ≤ 0
    · refine ⟨?_, ?_⟩
      · simp [releaseLoop, greedyPlan, hrem]
      · simp only [releaseLoop, if_pos hrem]
        exact List.forall₂_same.mpr (fun x _ => Or.inl rfl)
    · have hfsb : cur.find? (fun x => decide (x.id = sb.id)) = some sb :=
        hfind sb (List.mem_cons_self _ _)
      rw [List.map_cons, List.nodup_cons] at hnds
      have hsbmem : sb ∈ cur := List.mem_of_find?_eq_some hfsb
      set can := min sb.quantity remaining with hcan
      set p : Batch → Bool := fun x => decide (x.id = sb.id) with hp
      set f : Batch → Batch := fun x => applyRelease gen unit x can with hf
      set cur1 := updateFirst p f cur with hcur1
      have hid : ∀ x, p x = true → (f x).id = x.id := by
        intro x _
        exact applyRelease_id gen unit x can
      have hndc1 : (cur1.map Batch.id).Nodup := by
        rw [hcur1, map_id_updateFirst hid]
        exact hndc
      have hfind1 : ∀ sb' ∈ rest,
          cur1.find? (fun x => decide (x.id = sb'.id)) = some sb' := by
        intro sb' hsb'
        have hne : sb.id ≠ sb'.id := by
          intro he
          exact hnds.1 (he ▸ List.mem_map_of_mem Batch.id hsb')
        rw [hcur1, find?_updateFirst]
        · exact hfind sb' (List.mem_cons_of_mem _ hsb')
        · intro x hx
          have hxid : x.id = sb.id := of_decide_eq_true hx
          constructor
          · exact decide_eq_false (fun he => hne (hxid ▸ he))
          · rw [applyRelease_id]
            exact decide_eq_false (fun he => hne (hxid ▸ he))
      have ih := releaseLoop_spec gen unit rest cur1 (remaining - can)
        hndc1 hnds.2 hfind1
      have hloop : releaseLoop gen unit (sb :: rest) cur remaining =
          ((releaseLoop gen unit rest cur1 (remaining - can)).1,
           (sb.id, can) ::
             (releaseLoop gen unit rest cur1 (remaining - can)).2) := by
        simp only [releaseLoop, if_neg hrem, hfsb]
      refine ⟨?_, ?_⟩
      · rw [hloop]
        simp only [greedyPlan, if_neg hrem]
        rw [ih.1]
      · rw [hloop]
        have hstep : List.Forall₂
            (fun x y => y = x ∨ (p x = true ∧ y = f x)) cur cur1 :=
          hcur1 ▸ forall₂_updateFirst p f cur
        refine forall₂_comp_mem ?_ hstep ih.2
        intro a ha b c hR hS
        rcases hR with rfl | ⟨hpa, rfl⟩
        · rcases hS with rfl | ⟨hmem, q, hq, rfl⟩
          · exact Or.inl rfl
          · exact Or.inr ⟨List.mem_cons_of_mem _ hmem, q, hq, rfl⟩
        · have haid : a.id = sb.id := of_decide_eq_true hpa
          have haeq : a = sb := eq_of_id_eq hndc ha hsbmem haid
          rcases hS with rfl | ⟨hmem, q, hq, rfl⟩
          · refine Or.inr ⟨?_, can, ?_, rfl⟩
            · rw [List.map_cons]
              exact haid ▸ List.mem_cons_self _ _
            · rw [haeq, hcan]
              exact min_le_left _ _
          · exfalso
            rw [hf] at hmem
            rw [applyRelease_id] at hmem
            exact hnds.1 (haid ▸ hmem)

/-! ## Aggregation helpers -/

theorem foldl_add_quantity_aux (l : List Batch) :
    ∀ a : Int, l.foldl (fun sum b => sum + b.quantity) a =
      a + (l.map Batch.quantity).sum := by
  induction l with
  | nil => intro a; simp
  | cons x xs ih =>
    intro a
    simp only [List.foldl_cons, List.map_cons, List.sum_cons, ih]
    ring

theorem foldl_add_quantity (l : List Batch) :
    l.foldl (fun sum b => sum + b.quantity) 0 = (l.map Batch.quantity).sum := by
  rw [foldl_add_quantity_aux]
  ring

theorem getTotalQuantity_eq_sum (item : StockItem) :
    getTotalQuantity item = (item.batches.map Batch.quantity).sum :=
  foldl_add_quantity item.batches

theorem sum_filter_pos (bs : List Batch)
    (h : ∀ b ∈ bs, 0 ≤ b.quantity) :
    ((bs.filter (fun b => decide (0 < b.quantity))).map Batch.quantity).sum
      = (bs.map Batch.quantity).sum := by
  induction bs with
  | nil => rfl
  | cons x xs ih =>
    have hx := h x (List.mem_cons_self _ _)
    have ih' := ih (fun b hb => h b (List.mem_cons_of_mem _ hb))
    by_cases hpos : 0 < x.quantity
    · simp [List.filter_cons, hpos, ih']
    · have hz : x.quantity = 0 := le_antisymm (not_lt.mp hpos) hx
      simp [List.filter_cons, hpos, ih', hz]

theorem sortBatches_perm (strategy : ReleaseStrategy) (bs : List Batch) :
    List.Perm (sortBatches strategy bs)
      (bs.filter (fun b => decide (0 < b.quantity))) := by
  cases strategy <;> exact perm_insertionSortB _ _

theorem mem_sortBatches {strategy : ReleaseStrategy} {bs : List Batch}
    {b : Batch} : b ∈ sortBatches strategy bs ↔ b ∈ bs ∧ 0 < b.quantity := by
  rw [(sortBatches_perm strategy bs).mem_iff, List.mem_filter]
  simp

theorem sortBatches_nodup_ids {bs : List Batch}
    (hnd : (bs.map Batch.id).Nodup) (strategy : ReleaseStrategy) :
    ((sortBatches strategy bs).map Batch.id).Nodup := by
  refine (((sortBatches_perm strategy bs).map Batch.id).nodup_iff).mpr ?_
  exact ((bs.filter_sublist.map Batch.id).nodup hnd)

theorem sortBatches_sum (strategy : ReleaseStrategy) (bs : List Batch) :
    ((sortBatches strategy bs).map Batch.quantity).sum =
      ((bs.filter (fun b => decide (0 < b.quantity))).map
        Batch.quantity).sum :=
  ((sortBatches_perm strategy bs).map Batch.quantity).sum_eq

/-- Unfolding of `modifyItemBatchesForRelease` once the item is located. -/
theorem modify_found (storage : List StockItem) (itemId : Str) (qty : Int)
    (gen : Option NotesGen) (strategy : ReleaseStrategy) (today : Str)
    (item : StockItem)
    (hitem : storage.find? (fun it => decide (it.id = itemId)) = some item) :
    modifyItemBatchesForRelease storage itemId qty gen strategy today =
      (if (sortBatches strategy item.batches).foldl
          (fun sum b => sum + b.quantity) 0 < qty then
        (storage, Except.error (insufficientStockMsg
          ((sortBatches strategy item.batches).foldl
            (fun sum b => sum + b.quantity) 0) qty))
      else
        (updateFirst (fun it => decide (it.id = itemId))
          (fun _ =>
            { item with
              batches := (releaseLoop gen item.unit
                (sortBatches strategy item.batches) item.batches qty).1
              lastUpdated := today }) storage,
         Except.ok
           ⟨{ item with
              batches := (releaseLoop gen item.unit
                (sortBatches strategy item.batches) item.batches qty).1
              lastUpdated := today },
            (releaseLoop gen item.unit (sortBatches strategy item.batches)
              item.batches qty).2⟩)) := by
  unfold modifyItemBatchesForRelease
  rw [hitem]

/-! ## Greedy plan facts -/

theorem greedyPlan_sum : ∀ (bs : List Batch) (r : Int),
    (∀ b ∈ bs, 0 < b.quantity) → 0 ≤ r →
    r ≤ (bs.map Batch.quantity).sum →
    ((greedyPlan bs r).map Prod.snd).sum = r
  | [], r, _, h0, hr => by
    simp only [List.map_nil, List.sum_nil] at hr
    simp only [greedyPlan, List.map_nil, List.sum_nil]
    omega
  | b :: rest, r, hq, h0, hr => by
    by_cases hrem : r ≤ 0
    · simp only [greedyPlan, if_pos hrem, List.map_nil, List.sum_nil]
      omega
    · simp only [greedyPlan, if_neg hrem, List.map_cons, List.sum_cons]
      have hbq : 0 < b.quantity := hq b (List.mem_cons_self _ _)
      rw [List.map_cons, List.sum_cons] at hr
      have hsumr : (0 : Int) ≤ (rest.map Batch.quantity).sum := by
        have : ∀ q ∈ rest.map Batch.quantity, 0 ≤ q := by
          intro q hqmem
          rcases List.mem_map.mp hqmem with ⟨x, hx, rfl⟩
          exact le_of_lt (hq x (List.mem_cons_of_mem _ hx))
        exact List.sum_nonneg this
      have ih := greedyPlan_sum rest (r - min b.quantity r)
        (fun x hx => hq x (List.mem_cons_of_mem _ hx))
        (by omega) (by omega)
      rw [ih]
      omega

theorem greedyPlan_mem : ∀ (bs : List Batch) (r : Int),
    (∀ b ∈ bs, 0 < b.quantity) →
    ∀ p ∈ greedyPlan bs r, ∃ b ∈ bs, p.1 = b.id ∧ 0 < p.2 ∧
      p.2 ≤ b.quantity
  | [], _, _, p, hp => absurd hp (List.not_mem_nil p)
  | b :: rest, r, hq, p, hp => by
    by_cases hrem : r ≤ 0
    · rw [greedyPlan, if_pos hrem] at hp
      exact absurd hp (List.not_mem_nil p)
    · rw [greedyPlan, if_neg hrem] at hp
      rcases List.mem_cons.mp hp with rfl | hp'
      · refine ⟨b, List.mem_cons_self _ _, rfl, ?_, min_le_left _ _⟩
        have := hq b (List.mem_cons_self _ _)
        omega
      · rcases greedyPlan_mem rest _
          (fun x hx => hq x (List.mem_cons_of_mem _ hx)) p hp' with
          ⟨x, hx, hxx⟩
        exact ⟨x, List.mem_cons_of_mem _ hx, hxx⟩

/-- C1: for every batch collection (with well-formed expiry strings), the
FEFO depletion order is a permutation of the positive-quantity candidates,
pairwise ordered by the spec's FEFO relation (expiry ascending, undated
after dated, ties by `dateAdded`); and over batches
`[\x7bqty 10, exp none\x7d, \x7bqty 10, exp 2025-03-01\x7d]` a request of 15
drains 10 from the dated batch first, then 5 from the undated one. -/
theorem C1_fefo_plan_order (bs : List Batch)
    (hwf : ∀ b ∈ bs, b.expiryDate ≠ some []) :
    (List.Perm (sortBatches ReleaseStrategy.FEFO bs)
      (bs.filter (fun b => decide (0 < b.quantity))) ∧
     (sortBatches ReleaseStrategy.FEFO bs).Pairwise specFefoLe) ∧
    ((modifyItemBatchesForRelease [exItem] (strOf "item1") 15 none
        ReleaseStrategy.FEFO (strOf "2025-06-01")).2.toOption.map
        (fun r => (r.affectedBatches,
          r.updatedItem.batches.map Batch.quantity)) =
      some ([(strOf "b2", 10), (strOf "b1", 5)], [5, 0])) := by
  refine ⟨⟨sortBatches_perm _ bs, ?_⟩, by decide⟩
  have hp := pairwise_insertionSortB fefoLe fefoLe_total fefoLe_trans
    (bs.filter (fun b => decide (0 < b.quantity)))
  have hsort : sortBatches ReleaseStrategy.FEFO bs =
      insertionSortB fefoLe (bs.filter (fun b => decide (0 < b.quantity))) :=
    rfl
  rw [hsort]
  refine List.Pairwise.imp_of_mem ?_ hp
  intro a b ha hb h
  have ha' : a ∈ bs := (List.mem_filter.mp (mem_insertionSortB.mp ha)).1
  have hb' : b ∈ bs := (List.mem_filter.mp (mem_insertionSortB.mp hb)).1
  exact fefoLe_imp_specFefoLe (hwf a ha') (hwf b hb') h

/-- Witness for C1 at the concrete example batches. -/
theorem C1_fefo_plan_order_witness :
    (∀ b ∈ [exB1, exB2], b.expiryDate ≠ some []) ∧
    ((List.Perm (sortBatches ReleaseStrategy.FEFO [exB1, exB2])
      ([exB1, exB2].filter (fun b => decide (0 < b.quantity))) ∧
     (sortBatches ReleaseStrategy.FEFO [exB1, exB2]).Pairwise specFefoLe) ∧
    ((modifyItemBatchesForRelease [exItem] (strOf "item1") 15 none
        ReleaseStrategy.FEFO (strOf "2025-06-01")).2.toOption.map
        (fun r => (r.affectedBatches,
          r.updatedItem.batches.map Batch.quantity)) =
      some ([(strOf "b2", 10), (strOf "b1", 5)], [5, 0]))) :=
  ⟨by decide, C1_fefo_plan_order [exB1, exB2] (by decide)⟩

/-- C2: a successful depletion's allocations are exactly the greedy plan
over the strategy-sorted candidates, they sum to the requested quantity,
and each allocation is positive and bounded by its batch's pre-operation
quantity. -/
theorem C2_depletion_allocations (storage : List StockItem) (itemId : Str)
    (qty : Int) (gen : Option NotesGen) (strategy : ReleaseStrategy)
    (today : Str) (item : StockItem) (storage' : List StockItem)
    (res : ReleaseResult)
    (hitem : storage.find? (fun it => decide (it.id = itemId)) = some item)
    (hnd : (item.batches.map Batch.id).Nodup)
    (hpos : 0 < qty)
    (hok : modifyItemBatchesForRelease storage itemId qty gen strategy today
      = (storage', Except.ok res)) :
    res.affectedBatches = greedyPlan (sortBatches strategy item.batches) qty ∧
    (res.affectedBatches.map Prod.snd).sum = qty ∧
    ∀ p ∈ res.affectedBatches, ∃ b ∈ item.batches,
      p.1 = b.id ∧ 0 < p.2 ∧ p.2 ≤ b.quantity := by
  rw [modify_found storage itemId qty gen strategy today item hitem] at hok
  by_cases hinsuf : (sortBatches strategy item.batches).foldl
      (fun sum b => sum + b.quantity) 0 < qty
  · rw [if_pos hinsuf] at hok
    exact absurd (congrArg Prod.snd hok) (by simp)
  · rw [if_neg hinsuf] at hok
    have hres := Except.ok.inj (congrArg Prod.snd hok)
    have hnds := sortBatches_nodup_ids hnd strategy
    have hfind : ∀ sb ∈ sortBatches strategy item.batches,
        item.batches.find? (fun x => decide (x.id = sb.id)) = some sb :=
      fun sb hsb => find?_id_eq_self hnd (mem_sortBatches.mp hsb).1
    have hloop := releaseLoop_spec gen item.unit
      (sortBatches strategy item.batches) item.batches qty hnd hnds hfind
    have hq : ∀ b ∈ sortBatches strategy item.batches, 0 < b.quantity :=
      fun b hb => (mem_sortBatches.mp hb).2
    have hsum : qty ≤ ((sortBatches strategy item.batches).map
        Batch.quantity).sum := by
      have hfold := foldl_add_quantity (sortBatches strategy item.batches)
      omega
    have haff : res.affectedBatches = (releaseLoop gen item.unit
        (sortBatches strategy item.batches) item.batches qty).2 := by
      rw [← hres]
    refine ⟨?_, ?_, ?_⟩
    · rw [haff, hloop.1]
    · rw [haff, hloop.1]
      exact greedyPlan_sum _ qty hq (le_of_lt hpos) hsum
    · rw [haff, hloop.1]
      intro p hp
      rcases greedyPlan_mem _ qty hq p hp with ⟨b, hb, hbb⟩
      exact ⟨b, (mem_sortBatches.mp hb).1, hbb⟩

/-- Witness for C2 at the concrete example release. -/
theorem C2_depletion_allocations_witness :
    (([exItem].find? (fun it => decide (it.id = strOf "item1")) =
        some exItem) ∧
     (exItem.batches.map Batch.id).Nodup ∧ (0 : Int) < 15 ∧
     (modifyItemBatchesForRelease [exItem] (strOf "item1") 15 none
        ReleaseStrategy.FEFO (strOf "2025-06-01") =
      ([exItemAfter],
       Except.ok ⟨exItemAfter, [(strOf "b2", 10), (strOf "b1", 5)]⟩))) ∧
    ((⟨exItemAfter, [(strOf "b2", 10), (strOf "b1", 5)]⟩ :
        ReleaseResult).affectedBatches =
      greedyPlan (sortBatches ReleaseStrategy.FEFO exItem.batches) 15 ∧
     (((⟨exItemAfter, [(strOf "b2", 10), (strOf "b1", 5)]⟩ :
        ReleaseResult).affectedBatches.map Prod.snd).sum = 15) ∧
     ∀ p ∈ (⟨exItemAfter, [(strOf "b2", 10), (strOf "b1", 5)]⟩ :
        ReleaseResult).affectedBatches, ∃ b ∈ exItem.batches,
       p.1 = b.id ∧ 0 < p.2 ∧ p.2 ≤ b.quantity) :=
  ⟨⟨by decide, by decide, by decide, by rfl⟩,
   C2_depletion_allocations [exItem] (strOf "item1") 15 none
     ReleaseStrategy.FEFO (strOf "2025-06-01") exItem [exItemAfter]
     ⟨exItemAfter, [(strOf "b2", 10), (strOf "b1", 5)]⟩
     (by decide) (by decide) (by decide) (by rfl)⟩

theorem appendNote_cases (old : Option Str) (t : Str) :
    ((old = none ∨ old = some []) ∧ appendNote old t = some t) ∨
    (∃ s : Str, old = some s ∧ s ≠ [] ∧
      appendNote old t = some (s ++ '\n' :: t)) := by
  match old with
  | none => exact Or.inl ⟨Or.inl rfl, rfl⟩
  | some s =>
    by_cases hs : s = []
    · subst hs
      exact Or.inl ⟨Or.inr rfl, rfl⟩
    · refine Or.inr ⟨s, rfl, hs, ?_⟩
      have hne : ¬ s.isEmpty = true := by simpa [List.isEmpty_iff] using hs
      simp [appendNote, hne]

/-- C9: under a release/consume with a notes formatter, every batch of the
updated item either keeps its notes unchanged, or (when drained) its new
notes are exactly the generated line when no notes existed (or they were
empty), or the previous text followed by a newline and the generated
line. -/
theorem C9_release_notes_append_only (storage : List StockItem)
    (itemId : Str) (qty : Int) (g : NotesGen) (strategy : ReleaseStrategy)
    (today : Str) (item : StockItem) (storage' : List StockItem)
    (res : ReleaseResult)
    (hitem : storage.find? (fun it => decide (it.id = itemId)) = some item)
    (hnd : (item.batches.map Batch.id).Nodup)
    (hok : modifyItemBatchesForRelease storage itemId qty (some g) strategy
      today = (storage', Except.ok res)) :
    ∀ b' ∈ res.updatedItem.batches, ∃ b ∈ item.batches, b'.id = b.id ∧
      (b'.notes = b.notes ∨
        ∃ q : Int, ∃ t : Str,
          t = g { b with quantity := b.quantity - q } q item.unit ∧
          (((b.notes = none ∨ b.notes = some []) ∧ b'.notes = some t) ∨
            (∃ s : Str, b.notes = some s ∧ s ≠ [] ∧
              b'.notes = some (s ++ '\n' :: t)))) := by
  rw [modify_found storage itemId qty (some g) strategy today item hitem]
    at hok
  by_cases hinsuf : (sortBatches strategy item.batches).foldl
      (fun sum b => sum + b.quantity) 0 < qty
  · rw [if_pos hinsuf] at hok
    exact absurd (congrArg Prod.snd hok) (by simp)
  · rw [if_neg hinsuf] at hok
    have hres := Except.ok.inj (congrArg Prod.snd hok)
    have hnds := sortBatches_nodup_ids hnd strategy
    have hfind : ∀ sb ∈ sortBatches strategy item.batches,
        item.batches.find? (fun x => decide (x.id = sb.id)) = some sb :=
      fun sb hsb => find?_id_eq_self hnd (mem_sortBatches.mp hsb).1
    have hloop := releaseLoop_spec (some g) item.unit
      (sortBatches strategy item.batches) item.batches qty hnd hnds hfind
    have hbatches : res.updatedItem.batches = (releaseLoop (some g)
        item.unit (sortBatches strategy item.batches) item.batches qty).1 :=
      by rw [← hres]
    intro b' hb'
    rw [hbatches] at hb'
    rcases forall₂_mem_right hloop.2 b' hb' with ⟨b, hb, htouch⟩
    rcases htouch with heq | ⟨_, q, _, heq⟩
    · refine ⟨b, hb, by rw [heq], Or.inl (by rw [heq])⟩
    · refine ⟨b, hb, ?_, Or.inr ?_⟩
      · rw [heq]
        exact applyRelease_id _ _ _ _
      · refine ⟨q, g { b with quantity := b.quantity - q } q item.unit,
          rfl, ?_⟩
        have hbn : (applyRelease (some g) item.unit b q).notes =
            appendNote b.notes
              (g { b with quantity := b.quantity - q } q item.unit) := rfl
        rw [heq, hbn]
        exact appendNote_cases b.notes _

/-- Witness for C9 at the concrete example release. -/
theorem C9_release_notes_append_only_witness :
    (([exItem].find? (fun it => decide (it.id = strOf "item1")) =
        some exItem) ∧
     (exItem.batches.map Batch.id).Nodup ∧
     (modifyItemBatchesForRelease [exItem] (strOf "item1") 15 (some exGen)
        ReleaseStrategy.FEFO (strOf "2025-06-01") =
      ([exItemAfterG],
       Except.ok ⟨exItemAfterG, [(strOf "b2", 10), (strOf "b1", 5)]⟩))) ∧
    (∀ b' ∈ (⟨exItemAfterG, [(strOf "b2", 10), (strOf "b1", 5)]⟩ :
        ReleaseResult).updatedItem.batches,
      ∃ b ∈ exItem.batches, b'.id = b.id ∧
        (b'.notes = b.notes ∨
          ∃ q : Int, ∃ t : Str,
            t = exGen { b with quantity := b.quantity - q } q exItem.unit ∧
            (((b.notes = none ∨ b.notes = some []) ∧ b'.notes = some t) ∨
              (∃ s : Str, b.notes = some s ∧ s ≠ [] ∧
                b'.notes = some (s ++ '\n' :: t))))) :=
  ⟨⟨by decide, by decide, by rfl⟩,
   C9_release_notes_append_only [exItem] (strOf "item1") 15 exGen
     ReleaseStrategy.FEFO (strOf "2025-06-01") exItem [exItemAfterG]
     ⟨exItemAfterG, [(strOf "b2", 10), (strOf "b1", 5)]⟩
     (by decide) (by decide) (by rfl)⟩

/-- C3: requesting strictly more than the item's total stock makes the
release reject with the insufficient-stock error and leaves the persisted
collection (hence every batch quantity, every note, and `lastUpdated`)
unchanged. -/
theorem C3_insufficient_stock_rejects (storage : List StockItem)
    (itemId : Str) (qty : Int) (gen : Option NotesGen)
    (strategy : ReleaseStrategy) (today : Str) (item : StockItem)
    (hitem : storage.find? (fun it => decide (it.id = itemId)) = some item)
    (hnn : ∀ b ∈ item.batches, 0 ≤ b.quantity)
    (hgt : getTotalQuantity item < qty) :
    modifyItemBatchesForRelease storage itemId qty gen strategy today =
      (storage,
       Except.error (insufficientStockMsg (getTotalQuantity item) qty)) := by
  rw [modify_found storage itemId qty gen strategy today item hitem]
  have htot : (sortBatches strategy item.batches).foldl
      (fun sum b => sum + b.quantity) 0 = getTotalQuantity item := by
    rw [foldl_add_quantity, sortBatches_sum, sum_filter_pos item.batches hnn,
      getTotalQuantity_eq_sum]
  rw [htot, if_pos hgt]

/-- Witness for C3: requesting 21 against a total of 20. -/
theorem C3_insufficient_stock_rejects_witness :
    (([exItem].find? (fun it => decide (it.id = strOf "item1")) =
        some exItem) ∧
     (∀ b ∈ exItem.batches, 0 ≤ b.quantity) ∧
     getTotalQuantity exItem < 21) ∧
    (modifyItemBatchesForRelease [exItem] (strOf "item1") 21 none
        ReleaseStrategy.FEFO (strOf "2025-06-01") =
      ([exItem],
       Except.error (insufficientStockMsg (getTotalQuantity exItem) 21))) :=
  ⟨⟨by decide, by decide, by decide⟩,
   C3_insufficient_stock_rejects [exItem] (strOf "item1") 21 none
     ReleaseStrategy.FEFO (strOf "2025-06-01") exItem
     (by decide) (by decide) (by decide)⟩

/-- C4 (failing input): `addBatchToItem` performs no quantity validation,
so adding a batch with supplied quantity `-5` succeeds and persists a
batch whose quantity is negative — the no-negative-quantity invariant is
violated by the add-batch path. -/
theorem C4_negative_quantity_batch_persisted :
    ((addBatchToItem [c4Before] (strOf "A") ⟨-5, none, none, none⟩
        (strOf "box") (strOf "2025-06-01") (strOf "a2")).2.toOption.map
        (fun it => it.batches.map Batch.quantity) = some [10, -5]) ∧
    ∃ it ∈ (addBatchToItem [c4Before] (strOf "A") ⟨-5, none, none, none⟩
        (strOf "box") (strOf "2025-06-01") (strOf "a2")).1,
      ∃ b ∈ it.batches, b.quantity < 0 := by
  decide

/-- C5 (failing input): the single-item add-batch operation (hook plus
service) does not validate `quantityAdded > 0`: a call with quantity `0`
succeeds (no invalid-quantity error) and creates a new batch with quantity
`0` dated today. -/
theorem C5_zero_quantity_add_accepted :
    (addStockBatchToItem [c4Before] [c4Before] (strOf "A")
        ⟨0, none, none, none⟩ (strOf "2025-06-01")
        (strOf "a2")).2.toOption.map
        (fun it => it.batches.map (fun b => (b.quantity, b.dateAdded)))
      = some [(10, strOf "2025-01-01"), (0, strOf "2025-06-01")] := by
  decide

/-- C10: `deleteItem` never fails; deleting an absent id leaves the
collection unchanged; deletion is idempotent; and the result is exactly
the prior collection with every item of that id removed. -/
theorem C10_deleteItem_characterization (storage : List StockItem)
    (id : Str) :
    ((∀ it ∈ storage, it.id ≠ id) → deleteItem storage id = storage) ∧
    deleteItem (deleteItem storage id) id = deleteItem storage id ∧
    ∀ it, it ∈ deleteItem storage id ↔ (it ∈ storage ∧ it.id ≠ id) := by
  refine ⟨?_, ?_, ?_⟩
  · intro h
    refine List.filter_eq_self.mpr ?_
    intro a ha
    simpa using h a ha
  · refine List.filter_eq_self.mpr ?_
    intro a ha
    unfold deleteItem at ha
    exact (List.mem_filter.mp ha).2
  · intro it
    rw [deleteItem, List.mem_filter]
    simp

/-- Witness for C10: deleting an id absent from the store. -/
theorem C10_deleteItem_characterization_witness :
    (∀ it ∈ [exItem], it.id ≠ strOf "zzz") ∧
    deleteItem [exItem] (strOf "zzz") = [exItem] :=
  ⟨by decide,
   (C10_deleteItem_characterization [exItem] (strOf "zzz")).1 (by decide)⟩

/-! ## Soonest expiry (claim C6) -/

theorem head?_eq_none_iff_sorted {le : α → α → Bool} {l : List α} :
    (insertionSortB le l).head? = none ↔ l = [] := by
  rw [List.head?_eq_none_iff]
  constructor
  · intro h
    have hperm := perm_insertionSortB le l
    rw [h] at hperm
    exact (List.Perm.symm hperm).eq_nil
  · intro h
    rw [h]
    rfl

theorem head?_min_sorted {le : α → α → Bool}
    (htotal : ∀ a b, (le a b || le b a) = true)
    (htrans : ∀ a b c, le a b = true → le b c = true → le a c = true)
    {l : List α} {d : α}
    (hd : (insertionSortB le l).head? = some d) :
    d ∈ l ∧ ∀ x ∈ l, le d x = true := by
  obtain ⟨t, ht⟩ : ∃ t, insertionSortB le l = d :: t := by
    cases hs : insertionSortB le l with
    | nil =>
      rw [hs] at hd
      exact absurd hd (by simp)
    | cons a t =>
      rw [hs, List.head?_cons] at hd
      obtain rfl : a = d := Option.some.inj hd
      exact ⟨t, hs ▸ rfl⟩
  have hdl : d ∈ l := mem_insertionSortB.mp (ht ▸ List.mem_cons_self d t)
  refine ⟨hdl, ?_⟩
  intro x hx
  have hxs : x ∈ insertionSortB le l := mem_insertionSortB.mpr hx
  rw [ht] at hxs
  rcases List.mem_cons.mp hxs with rfl | hxt
  · have := htotal x x
    simpa using this
  · have hp := pairwise_insertionSortB le htotal htrans l
    rw [ht] at hp
    exact (List.pairwise_cons.mp hp).1 x hxt

theorem strLe_trans3 (a b c : Str) (h₁ : strLe a b = true)
    (h₂ : strLe b c = true) : strLe a c = true :=
  strLe_trans h₁ h₂

/-- The code's batch filter in `getSoonestExpiryDate` coincides, for a
nonempty `today`, with the claim's eligibility (positive quantity, expiry
present and not strictly before today). -/
theorem codeEligible_iff (today : Str) (htoday : today ≠ []) (b : Batch) :
    ((decide (0 < b.quantity) && truthyStr b.expiryDate &&
      (match b.expiryDate with
       | some e => strLe today e
       | none => false)) = true) ↔
    (0 < b.quantity ∧ ∃ e, b.expiryDate = some e ∧ strLe today e = true) := by
  rcases hb : b.expiryDate with _ | e
  · simp [truthyStr]
  · constructor
    · intro h
      simp only [Bool.and_eq_true, decide_eq_true_eq] at h
      exact ⟨h.1.1, e, rfl, h.2⟩
    · rintro ⟨hq, e', he', hle⟩
      have hee : e' = e := (Option.some.inj he').symm
      rw [hee] at hle
      have hene : e ≠ [] := by
        intro he
        rw [he] at hle
        cases htd : today with
        | nil => exact htoday htd
        | cons c t =>
          rw [htd] at hle
          simp [strLe, strLt] at hle
      have htr : truthyStr (some e) = true := by
        simp [truthyStr, List.isEmpty_iff, hene]
      simp [hq, htr, hle]

/-- C6: for a nonempty current date, `getSoonestExpiryDate` returns
nothing exactly when no batch has positive quantity and a present,
not-yet-expired expiry date, and otherwise returns the minimum such expiry
date; zero-quantity and already-expired batches never contribute. -/
theorem C6_soonest_expiry (today : Str) (item : StockItem)
    (htoday : today ≠ []) :
    (getSoonestExpiryDate today item = none ↔
      ∀ b ∈ item.batches, ¬ (0 < b.quantity ∧
        ∃ e, b.expiryDate = some e ∧ strLe today e = true)) ∧
    (∀ d, getSoonestExpiryDate today item = some d →
      ((∃ b ∈ item.batches, 0 < b.quantity ∧ b.expiryDate = some d ∧
          strLe today d = true) ∧
        ∀ b ∈ item.batches, ∀ e, 0 < b.quantity → b.expiryDate = some e →
          strLe today e = true → strLe d e = true)) := by
  constructor
  · rw [getSoonestExpiryDate, head?_eq_none_iff_sorted,
      List.filterMap_eq_nil_iff]
    constructor
    · intro h b hb hcl
      have hbel : b ∈ item.batches.filter (fun batch =>
          decide (0 < batch.quantity) && truthyStr batch.expiryDate &&
            (match batch.expiryDate with
             | some e => strLe today e
             | none => false)) :=
        List.mem_filter.mpr ⟨hb, (codeEligible_iff today htoday b).mpr hcl⟩
      have hnone := h b hbel
      rcases hcl with ⟨_, e, he, _⟩
      rw [he] at hnone
      exact Option.some_ne_none e hnone
    · intro h b hbel
      exact absurd ((codeEligible_iff today htoday b).mp
          (List.mem_filter.mp hbel).2)
        (h b (List.mem_filter.mp hbel).1)
  · intro d hd
    rw [getSoonestExpiryDate] at hd
    have hmin := head?_min_sorted strLe_total strLe_trans3 hd
    constructor
    · rcases List.mem_filterMap.mp hmin.1 with ⟨b, hbel, hbe⟩
      have hb : b ∈ item.batches := (List.mem_filter.mp hbel).1
      have hcl := (codeEligible_iff today htoday b).mp
        (List.mem_filter.mp hbel).2
      rcases hcl with ⟨hq, e, he, hle⟩
      obtain rfl : e = d := by
        rw [he] at hbe
        exact Option.some.inj hbe
      exact ⟨b, hb, hq, he, hle⟩
    · intro b hb e hq he hle
      have hbel : b ∈ item.batches.filter (fun batch =>
          decide (0 < batch.quantity) && truthyStr batch.expiryDate &&
            (match batch.expiryDate with
             | some e => strLe today e
             | none => false)) :=
        List.mem_filter.mpr ⟨hb,
          (codeEligible_iff today htoday b).mpr ⟨hq, e, he, hle⟩⟩
      exact hmin.2 e (List.mem_filterMap.mpr ⟨b, hbel, he⟩)

/-- Witness for C6: over `exItem` on 2025-02-01 the soonest expiry is
2025-03-01 (the undated batch is ignored). -/
theorem C6_soonest_expiry_witness :
    (strOf "2025-02-01" ≠ []) ∧
    ((getSoonestExpiryDate (strOf "2025-02-01") exItem = none ↔
      ∀ b ∈ exItem.batches, ¬ (0 < b.quantity ∧
        ∃ e, b.expiryDate = some e ∧
          strLe (strOf "2025-02-01") e = true)) ∧
    (∀ d, getSoonestExpiryDate (strOf "2025-02-01") exItem = some d →
      ((∃ b ∈ exItem.batches, 0 < b.quantity ∧ b.expiryDate = some d ∧
          strLe (strOf "2025-02-01") d = true) ∧
        ∀ b ∈ exItem.batches, ∀ e, 0 < b.quantity →
          b.expiryDate = some e → strLe (strOf "2025-02-01") e = true →
            strLe d e = true))) :=
  ⟨by decide, C6_soonest_expiry (strOf "2025-02-01") exItem (by decide)⟩

/-! ## Bulk release lemmas -/

/-- Unfolding of `modifyItemBatchesForRelease` when the item is absent. -/
theorem modify_notfound (storage : List StockItem) (itemId : Str)
    (qty : Int) (gen : Option NotesGen) (strategy : ReleaseStrategy)
    (today : Str)
    (h : storage.find? (fun it => decide (it.id = itemId)) = none) :
    modifyItemBatchesForRelease storage itemId qty gen strategy today =
      (storage, Except.error (strOf "Item not found for release")) := by
  unfold modifyItemBatchesForRelease
  rw [h]

/-- A rejected release leaves the persisted collection untouched. -/
theorem modify_error_storage {storage : List StockItem} {itemId : Str}
    {qty : Int} {gen : Option NotesGen} {strategy : ReleaseStrategy}
    {today : Str} {s' : List StockItem} {msg : Str}
    (h : modifyItemBatchesForRelease storage itemId qty gen strategy today
      = (s', Except.error msg)) : s' = storage := by
  cases hfind : storage.find? (fun it => decide (it.id = itemId)) with
  | none =>
    rw [modify_notfound storage itemId qty gen strategy today hfind] at h
    exact (congrArg Prod.fst h).symm
  | some item =>
    rw [modify_found storage itemId qty gen strategy today item hfind] at h
    by_cases hc : (sortBatches strategy item.batches).foldl
        (fun sum b => sum + b.quantity) 0 < qty
    · rw [if_pos hc] at h
      exact (congrArg Prod.fst h).symm
    · rw [if_neg hc] at h
      exact absurd (congrArg Prod.snd h) (by simp)

/-- A release call never changes how any other item id resolves in the
persisted collection. -/
theorem modify_preserves_other (storage : List StockItem) (itemId : Str)
    (qty : Int) (gen : Option NotesGen) (strategy : ReleaseStrategy)
    (today : Str) (iid : Str) (hne : iid ≠ itemId) :
    (modifyItemBatchesForRelease storage itemId qty gen strategy
      today).1.find? (fun it => decide (it.id = iid)) =
    storage.find? (fun it => decide (it.id = iid)) := by
  cases hfind : storage.find? (fun it => decide (it.id = itemId)) with
  | none =>
    rw [modify_notfound storage itemId qty gen strategy today hfind]
  | some item =>
    rw [modify_found storage itemId qty gen strategy today item hfind]
    by_cases hc : (sortBatches strategy item.batches).foldl
        (fun sum b => sum + b.quantity) 0 < qty
    · rw [if_pos hc]
    · rw [if_neg hc]
      have hiid : item.id = itemId := by
        have h := List.find?_some hfind
        simpa using h
      refine find?_updateFirst ?_ storage
      intro x hx
      have hxid : x.id = itemId := of_decide_eq_true hx
      refine ⟨decide_eq_false ?_, decide_eq_false ?_⟩
      · intro h
        exact hne (h.symm.trans hxid)
      · intro h
        exact hne (h.symm.trans hiid)

/-- Processing entries that never mention an id leaves that id's
resolution in the persisted collection unchanged. -/
theorem bulkLoop_preserves_notin (state : List StockItem) (gen : NotesGen)
    (today : Str) :
    ∀ (entries : List BulkEntry) (storage : List StockItem) (iid : Str),
      iid ∉ entries.map BulkEntry.itemId →
      (bulkLoop state gen today entries storage).storage.find?
        (fun it => decide (it.id = iid)) =
      storage.find? (fun it => decide (it.id = iid))
  | [], storage, iid, _ => rfl
  | e :: rest, storage, iid, hnotin => by
    have hne : iid ≠ e.itemId := by
      intro h
      exact hnotin (by
        rw [List.map_cons]
        exact h ▸ List.mem_cons_self _ _)
    have hnotin' : iid ∉ rest.map BulkEntry.itemId := by
      intro h
      exact hnotin (by
        rw [List.map_cons]
        exact List.mem_cons_of_mem _ h)
    unfold bulkLoop
    split
    · exact bulkLoop_preserves_notin state gen today rest storage iid hnotin'
    · split
      · exact bulkLoop_preserves_notin state gen today rest storage iid
          hnotin'
      · split
        · exact bulkLoop_preserves_notin state gen today rest storage iid
            hnotin'
        · split
          · rename_i storage1 res hmod
            rw [bulkLoop_preserves_notin state gen today rest storage1 iid
              hnotin']
            have h := modify_preserves_other storage e.itemId
              e.quantityReleased (some gen) ReleaseStrategy.FEFO
              today iid hne
            rw [hmod] at h
            exact h
          · rename_i storage1 msg hmod
            rw [bulkLoop_preserves_notin state gen today rest storage1 iid
              hnotin']
            have h := modify_preserves_other storage e.itemId
              e.quantityReleased (some gen) ReleaseStrategy.FEFO
              today iid hne
            rw [hmod] at h
            exact h

/-- Every recorded error names the id of some entry. -/
theorem bulkLoop_error_ids (state : List StockItem) (gen : NotesGen)
    (today : Str) :
    ∀ (entries : List BulkEntry) (storage : List StockItem),
      ∀ err ∈ (bulkLoop state gen today entries storage).errors,
        err.itemId ∈ entries.map BulkEntry.itemId
  | [], _, err, herr => absurd herr (List.not_mem_nil err)
  | e :: rest, storage, err, herr => by
    rw [List.map_cons]
    revert herr
    unfold bulkLoop
    split
    · intro herr
      rcases List.mem_cons.mp herr with rfl | herr'
      · exact List.mem_cons_self _ _
      · exact List.mem_cons_of_mem _
          (bulkLoop_error_ids state gen today rest storage err herr')
    · split
      · intro herr
        rcases List.mem_cons.mp herr with rfl | herr'
        · exact List.mem_cons_self _ _
        · exact List.mem_cons_of_mem _
            (bulkLoop_error_ids state gen today rest storage err herr')
      · split
        · intro herr
          rcases List.mem_cons.mp herr with rfl | herr'
          · exact List.mem_cons_self _ _
          · exact List.mem_cons_of_mem _
              (bulkLoop_error_ids state gen today rest storage err herr')
        · split
          · rename_i storage1 res hmod
            intro herr
            exact List.mem_cons_of_mem _
              (bulkLoop_error_ids state gen today rest storage1 err herr)
          · rename_i storage1 msg hmod
            intro herr
            rcases List.mem_cons.mp herr with rfl | herr'
            · exact List.mem_cons_self _ _
            · exact List.mem_cons_of_mem _
                (bulkLoop_error_ids state gen today rest storage1 err herr')

/-- Every entry produces exactly one of: a processed item or an error. -/
theorem bulkLoop_counts (state : List StockItem) (gen : NotesGen)
    (today : Str) :
    ∀ (entries : List BulkEntry) (storage : List StockItem),
      (bulkLoop state gen today entries storage).processedItems.length +
        (bulkLoop state gen today entries storage).errors.length =
        entries.length
  | [], _ => rfl
  | e :: rest, storage => by
    unfold bulkLoop
    split
    · have ih := bulkLoop_counts state gen today rest storage
      simp only [List.length_cons]
      omega
    · split
      · have ih := bulkLoop_counts state gen today rest storage
        simp only [List.length_cons]
        omega
      · split
        · have ih := bulkLoop_counts state gen today rest storage
          simp only [List.length_cons]
          omega
        · split
          · rename_i storage1 res hmod
            have ih := bulkLoop_counts state gen today rest storage1
            simp only [List.length_cons]
            omega
          · rename_i storage1 msg hmod
            have ih := bulkLoop_counts state gen today rest storage1
            simp only [List.length_cons]
            omega

/-- The loop's success flag is set exactly when no error was recorded. -/
theorem bulkLoop_success_eq (state : List StockItem) (gen : NotesGen)
    (today : Str) :
    ∀ (entries : List BulkEntry) (storage : List StockItem),
      (bulkLoop state gen today entries storage).overallSuccess =
        (bulkLoop state gen today entries storage).errors.isEmpty
  | [], _ => rfl
  | e :: rest, storage => by
    unfold bulkLoop
    split
    · simp
    · split
      · simp
      · split
        · simp
        · split
          · rename_i storage1 res hmod
            exact bulkLoop_success_eq state gen today rest storage1
          · rename_i storage1 msg hmod
            simp

/-- A failing entry's item resolves identically before and after the bulk
operation (entry ids distinct). -/
theorem bulkLoop_error_untouched (state : List StockItem) (gen : NotesGen)
    (today : Str) :
    ∀ (entries : List BulkEntry) (storage : List StockItem),
      (entries.map BulkEntry.itemId).Nodup →
      ∀ err ∈ (bulkLoop state gen today entries storage).errors,
        (bulkLoop state gen today entries storage).storage.find?
          (fun it => decide (it.id = err.itemId)) =
        storage.find? (fun it => decide (it.id = err.itemId))
  | [], _, _, err, herr => absurd herr (List.not_mem_nil err)
  | e :: rest, storage, hnd, err, herr => by
    rw [List.map_cons, List.nodup_cons] at hnd
    revert herr
    unfold bulkLoop
    split
    · intro herr
      rcases List.mem_cons.mp herr with rfl | herr'
      · exact bulkLoop_preserves_notin state gen today rest storage e.itemId
          hnd.1
      · exact bulkLoop_error_untouched state gen today rest storage hnd.2
          err herr'
    · split
      · intro herr
        rcases List.mem_cons.mp herr with rfl | herr'
        · exact bulkLoop_preserves_notin state gen today rest storage
            e.itemId hnd.1
        · exact bulkLoop_error_untouched state gen today rest storage hnd.2
            err herr'
      · split
        · intro herr
          rcases List.mem_cons.mp herr with rfl | herr'
          · exact bulkLoop_preserves_notin state gen today rest storage
              e.itemId hnd.1
          · exact bulkLoop_error_untouched state gen today rest storage
              hnd.2 err herr'
        · split
          · rename_i storage1 res hmod
            intro herr
            have herrid : err.itemId ∈ rest.map BulkEntry.itemId :=
              bulkLoop_error_ids state gen today rest storage1 err herr
            have hne : err.itemId ≠ e.itemId := by
              intro h
              exact hnd.1 (h ▸ herrid)
            have h1 := bulkLoop_error_untouched state gen today rest
              storage1 hnd.2 err herr
            rw [h1]
            have h2 := modify_preserves_other storage e.itemId
              e.quantityReleased (some gen) ReleaseStrategy.FEFO
              today err.itemId hne
            rw [hmod] at h2
            exact h2
          · rename_i storage1 msg hmod
            intro herr
            have hst : storage1 = storage := modify_error_storage hmod
            subst hst
            rcases List.mem_cons.mp herr with rfl | herr'
            · exact bulkLoop_preserves_notin state gen today rest storage1
                e.itemId hnd.1
            · exact bulkLoop_error_untouched state gen today rest storage1
                hnd.2 err herr'

/-- C7: bulk release processes each entry independently: every entry
yields exactly one processed item or one error; the success flag is true
exactly when there were no errors and at least one entry was processed; a
failing entry's item resolves unchanged in the store (entry ids distinct);
and on the concrete `[(A,5), (B,999999)]` example with B holding 10, A is
drained while B's record and the error list are as the spec describes. -/
theorem C7_bulk_release_per_entry (state storage : List StockItem)
    (entries : List BulkEntry) (gen : NotesGen) (today : Str) :
    ((processBulkStockRelease state storage entries gen
        today).1.processedItems.length +
      (processBulkStockRelease state storage entries gen
        today).1.errors.length = entries.length) ∧
    ((processBulkStockRelease state storage entries gen today).1.success =
        true ↔
      ((processBulkStockRelease state storage entries gen today).1.errors =
          [] ∧
        (processBulkStockRelease state storage entries gen
          today).1.processedItems ≠ [])) ∧
    ((entries.map BulkEntry.itemId).Nodup →
      ∀ err ∈ (processBulkStockRelease state storage entries gen
          today).1.errors,
        (processBulkStockRelease state storage entries gen today).2.find?
          (fun it => decide (it.id = err.itemId)) =
        storage.find? (fun it => decide (it.id = err.itemId))) ∧
    (((processBulkStockRelease c7store c7store c7entries c7gen
          (strOf "2025-06-01")).1.processedItems.map
          (fun p => (p.item.id, p.quantityReleased, p.affectedBatches)) =
        [(strOf "A", 5, [(strOf "a1", 5)])]) ∧
      ((processBulkStockRelease c7store c7store c7entries c7gen
          (strOf "2025-06-01")).1.errors =
        [⟨strOf "B", strOf "Item B", hookInsufficientMsg 10⟩]) ∧
      ((processBulkStockRelease c7store c7store c7entries c7gen
          (strOf "2025-06-01")).1.success = false) ∧
      ((processBulkStockRelease c7store c7store c7entries c7gen
          (strOf "2025-06-01")).2.map
          (fun it => (it.id, it.batches.map Batch.quantity)) =
        [(strOf "A", [2]), (strOf "B", [10])]) ∧
      ((processBulkStockRelease c7store c7store c7entries c7gen
          (strOf "2025-06-01")).2.find?
          (fun it => decide (it.id = strOf "B")) = some c7B)) := by
  refine ⟨bulkLoop_counts state gen today entries storage, ?_, ?_, ?_⟩
  · have hs := bulkLoop_success_eq state gen today entries storage
    constructor
    · intro h
      have h' : ((bulkLoop state gen today entries
            storage).overallSuccess &&
          decide (0 < (bulkLoop state gen today entries
            storage).processedItems.length)) = true := h
      rw [Bool.and_eq_true] at h'
      refine ⟨?_, ?_⟩
      · have hh := h'.1
        rw [hs] at hh
        exact List.isEmpty_iff.mp hh
      · exact List.ne_nil_of_length_pos (of_decide_eq_true h'.2)
    · rintro ⟨he, hp⟩
      show ((bulkLoop state gen today entries storage).overallSuccess &&
        decide (0 < (bulkLoop state gen today entries
          storage).processedItems.length)) = true
      rw [Bool.and_eq_true, hs]
      exact ⟨List.isEmpty_iff.mpr he,
        decide_eq_true (List.length_pos.mpr hp)⟩
  · intro hnodup err herr
    exact bulkLoop_error_untouched state gen today entries storage hnodup
      err herr
  · refine ⟨by decide, by decide, by decide, by decide, by decide⟩

/-- Witness for C7: the distinct-ids hypothesis of the untouched-item part
discharged at the concrete example. -/
theorem C7_bulk_release_per_entry_witness :
    ((c7entries.map BulkEntry.itemId).Nodup) ∧
    (∀ err ∈ (processBulkStockRelease c7store c7store c7entries c7gen
        (strOf "2025-06-01")).1.errors,
      (processBulkStockRelease c7store c7store c7entries c7gen
        (strOf "2025-06-01")).2.find?
        (fun it => decide (it.id = err.itemId)) =
      c7store.find? (fun it => decide (it.id = err.itemId))) :=
  ⟨by decide,
   (C7_bulk_release_per_entry c7store c7store c7entries c7gen
     (strOf "2025-06-01")).2.2.1 (by decide)⟩

/-! ## Parser lemmas for the add-batch round trip (claim C8) -/

theorem chMatch_refl (c : Char) : chMatch c c = true := by
  simp [chMatch]

theorem chMatch_bracket {c : Char} (h : chMatch '[' c = true) : c = '[' := by
  unfold chMatch at h
  rw [show isLowerA '[' = false from by decide,
    show isUpperA '[' = false from by decide] at h
  simp at h
  exact h.symm

theorem matchLit_append : ∀ (p r : Str), matchLit p (p ++ r) = some r
  | [], _ => rfl
  | c :: ps, r => by
    show (if chMatch c c = true then matchLit ps (ps ++ r) else none)
      = some r
    rw [chMatch_refl, if_pos rfl]
    exact matchLit_append ps r

theorem matchLit_append_none : ∀ (p a : Str), matchLit p a = none →
    p.length ≤ a.length → ∀ r, matchLit p (a ++ r) = none
  | [], _, h, _, _ => by simp [matchLit] at h
  | _ :: _, [], _, hlen, _ => by simp at hlen
  | c :: ps, b :: as, h, hlen, r => by
    simp only [matchLit] at h
    simp only [List.cons_append, matchLit]
    by_cases hcb : chMatch c b = true
    · rw [if_pos hcb] at h ⊢
      exact matchLit_append_none ps as h (by simpa using hlen) r
    · rw [if_neg hcb]

theorem isDateShape_length {cs : Str} (h : isDateShape cs = true) :
    cs.length = 10 := by
  have h' : cs.map digitMask = strOf "0000-00-00" := of_decide_eq_true h
  have h'' := congrArg List.length h'
  simpa using h''

theorem isDateShape_not_mem {cs : Str} (h : isDateShape cs = true)
    {c : Char} (hc : digitMask c = c) (hcn : c ∉ strOf "0000-00-00") :
    c ∉ cs := by
  intro hmem
  have h' : cs.map digitMask = strOf "0000-00-00" := of_decide_eq_true h
  have hm : digitMask c ∈ cs.map digitMask := List.mem_map_of_mem _ hmem
  rw [h', hc] at hm
  exact hcn hm

theorem isDateShape_no_bracket {cs : Str} (h : isDateShape cs = true) :
    '[' ∉ cs :=
  isDateShape_not_mem h (by decide) (by decide)

theorem isDateShape_no_newline {cs : Str} (h : isDateShape cs = true) :
    '\n' ∉ cs :=
  isDateShape_not_mem h (by decide) (by decide)

theorem matchDate_append {d : Str} (hd : isDateShape d = true) (r : Str) :
    matchDate (d ++ r) = some (d, r) := by
  have hlen := isDateShape_length hd
  unfold matchDate
  rw [List.take_left' hlen, List.drop_left' hlen, if_pos hd]

theorem searchTag_none_of_no_bracket (tag verb : Str) :
    ∀ cs : Str, '[' ∉ cs → searchTag tag verb cs = none
  | [], _ => rfl
  | c :: rest, hnb => by
    have hc : ¬ (chMatch '[' c = true) := by
      intro h
      exact hnb (chMatch_bracket h ▸ List.mem_cons_self _ _)
    have htry : tryTag tag verb (c :: rest) = none := by
      unfold tryTag
      have hm : matchLit ('[' :: (tag ++ strOf " - ")) (c :: rest)
          = none := by
        simp only [matchLit]
        rw [if_neg hc]
      rw [hm]
      rfl
    unfold searchTag
    rw [htry]
    exact searchTag_none_of_no_bracket tag verb rest
      (fun h => hnb (List.mem_cons_of_mem _ h))

theorem searchTag_cons_some (tag verb : Str) (c : Char) (rest : Str)
    (r : Str × Nat) (h : tryTag tag verb (c :: rest) = some r) :
    searchTag tag verb (c :: rest) = some r := by
  unfold searchTag
  rw [h]

theorem takeDigits1_15 (x : Str) :
    takeDigits1 (strOf "15 " ++ x) = some (15, ' ' :: x) := by
  have hshape : strOf "15 " ++ x = '1' :: '5' :: ' ' :: x := rfl
  rw [hshape]
  have ht : ('1' :: '5' :: ' ' :: x).takeWhile Char.isDigit
      = ['1', '5'] := by
    rw [List.takeWhile_cons_of_pos (by decide),
      List.takeWhile_cons_of_pos (by decide),
      List.takeWhile_cons_of_neg (by decide)]
  have hd : ('1' :: '5' :: ' ' :: x).dropWhile Char.isDigit
      = ' ' :: x := by
    rw [List.dropWhile_cons_of_pos (by decide),
      List.dropWhile_cons_of_pos (by decide),
      List.dropWhile_cons_of_neg (by decide)]
  unfold takeDigits1
  rw [ht, hd]
  rfl

theorem matchLit_cons_same (p : Char) (ps cs : Str) :
    matchLit (p :: ps) (p :: cs) = matchLit ps cs := by
  simp [matchLit, chMatch_refl]

theorem trimChars_bracket_dot (cs : Str) (h1 : cs.head? = some '[')
    (h2 : cs.getLast? = some '.') : trimChars (cs ++ [' ']) = cs := by
  obtain ⟨t, rfl⟩ : ∃ t, cs = '[' :: t := by
    cases cs with
    | nil => simp at h1
    | cons a t =>
      rw [List.head?_cons] at h1
      exact ⟨t, by rw [Option.some.inj h1]⟩
  rw [List.cons_append]
  unfold trimChars
  rw [List.dropWhile_cons_of_neg (by decide)]
  rw [show ('[' :: (t ++ [' '])).reverse = ' ' :: ('[' :: t).reverse from by
    rw [← List.cons_append, List.reverse_append]
    rfl]
  rw [List.dropWhile_cons_of_pos (by decide)]
  obtain ⟨r, hr⟩ : ∃ r, ('[' :: t).reverse = '.' :: r := by
    have hh : ('[' :: t).reverse.head? = some '.' := by
      rw [List.head?_reverse]
      exact h2
    cases hrev : ('[' :: t).reverse with
    | nil =>
      rw [hrev] at hh
      simp at hh
    | cons a r =>
      rw [hrev, List.head?_cons] at hh
      exact ⟨r, by rw [Option.some.inj hh]⟩
  rw [hr, List.dropWhile_cons_of_neg (by decide), ← hr,
    List.reverse_reverse]

theorem trim_sysNote (today unit : Str) :
    trimChars (strOf "[Stock Addition - " ++ today ++ strOf "]: Added "
      ++ strOf "15" ++ strOf " " ++ unit ++ strOf ". ") =
    strOf "[Stock Addition - " ++ today ++ strOf "]: Added "
      ++ strOf "15" ++ strOf " " ++ unit ++ strOf "." := by
  have harg : strOf "[Stock Addition - " ++ today ++ strOf "]: Added "
      ++ strOf "15" ++ strOf " " ++ unit ++ strOf ". "
      = (strOf "[Stock Addition - " ++ today ++ strOf "]: Added "
        ++ strOf "15" ++ strOf " " ++ unit ++ strOf ".") ++ [' '] := by
    simp only [List.append_assoc]
    rfl
  rw [harg]
  refine trimChars_bracket_dot _ rfl ?_
  exact List.getLast?_concat _

theorem lineEvent_sysNote (today unit : Str)
    (htoday : isDateShape today = true) (hunit : '[' ∉ unit) :
    lineEvent (strOf "[Stock Addition - " ++ today ++ strOf "]: Added "
      ++ strOf "15" ++ strOf " " ++ unit ++ strOf ".") =
      some (true, today, 15) := by
  have hassoc : strOf "[Stock Addition - " ++ today ++ strOf "]: Added "
      ++ strOf "15" ++ strOf " " ++ unit ++ strOf "."
      = strOf "[Stock Addition - " ++ (today ++ (strOf "]: Added 15 "
        ++ (unit ++ strOf "."))) := by
    simp only [List.append_assoc]
    rfl
  rw [hassoc]
  have hcons : strOf "[Stock Addition - " ++ (today ++ (strOf "]: Added 15 "
      ++ (unit ++ strOf "."))) = '[' :: (strOf "Stock Addition - " ++
        (today ++ (strOf "]: Added 15 " ++ (unit ++ strOf ".")))) := rfl
  have hnbT : '[' ∉ strOf "Stock Addition - " ++
      (today ++ (strOf "]: Added 15 " ++ (unit ++ strOf "."))) := by
    intro hmem
    rcases List.mem_append.mp hmem with h | h
    · revert h
      decide
    rcases List.mem_append.mp h with h | h
    · exact isDateShape_no_bracket htoday h
    rcases List.mem_append.mp h with h | h
    · revert h
      decide
    rcases List.mem_append.mp h with h | h
    · exact hunit h
    · revert h
      decide
  have hInit : searchTag (strOf "Initial Stock") (strOf "Added")
      ('[' :: (strOf "Stock Addition - " ++ (today ++ (strOf "]: Added 15 "
        ++ (unit ++ strOf "."))))) = none := by
    have hm2 : matchLit (strOf "Initial Stock" ++ strOf " - ")
        (strOf "Stock Addition - " ++ (today ++ (strOf "]: Added 15 "
          ++ (unit ++ strOf ".")))) = none :=
      matchLit_append_none _ _ (by decide) (by decide) _
    have htry : tryTag (strOf "Initial Stock") (strOf "Added")
        ('[' :: (strOf "Stock Addition - " ++ (today ++
          (strOf "]: Added 15 " ++ (unit ++ strOf "."))))) = none := by
      unfold tryTag
      have hm : matchLit ('[' :: (strOf "Initial Stock" ++ strOf " - "))
          ('[' :: (strOf "Stock Addition - " ++ (today ++
            (strOf "]: Added 15 " ++ (unit ++ strOf "."))))) = none := by
        rw [matchLit_cons_same]
        exact hm2
      rw [hm]
      rfl
    unfold searchTag
    rw [htry]
    exact searchTag_none_of_no_bracket _ _ _ hnbT
  have hAdd : searchTag (strOf "Stock Addition") (strOf "Added")
      ('[' :: (strOf "Stock Addition - " ++ (today ++ (strOf "]: Added 15 "
        ++ (unit ++ strOf "."))))) = some (today, 15) := by
    apply searchTag_cons_some
    unfold tryTag
    rw [show ('[' :: (strOf "Stock Addition - " ++ (today ++
        (strOf "]: Added 15 " ++ (unit ++ strOf "."))))) =
      ('[' :: (strOf "Stock Addition" ++ strOf " - ")) ++ (today ++
        (strOf "]: Added 15 " ++ (unit ++ strOf "."))) from rfl]
    rw [matchLit_append]
    show (matchDate (today ++ (strOf "]: Added 15 " ++ (unit ++
        strOf ".")))).bind
      (fun dr => (matchLit (strOf "]: " ++ (strOf "Added" ++ strOf " "))
        dr.2).bind
          (fun r3 => Option.map (fun qr => (dr.1, qr.1))
            (takeDigits1 r3))) = some (today, 15)
    rw [matchDate_append htoday]
    show (matchLit (strOf "]: " ++ (strOf "Added" ++ strOf " "))
        (strOf "]: Added 15 " ++ (unit ++ strOf "."))).bind
      (fun r3 => Option.map (fun qr => (today, qr.1)) (takeDigits1 r3))
        = some (today, 15)
    rw [show strOf "]: Added 15 " ++ (unit ++ strOf ".") =
      (strOf "]: " ++ (strOf "Added" ++ strOf " ")) ++ (strOf "15 " ++
        (unit ++ strOf ".")) from rfl]
    rw [matchLit_append]
    show Option.map (fun qr => (today, qr.1))
      (takeDigits1 (strOf "15 " ++ (unit ++ strOf "."))) = some (today, 15)
    rw [takeDigits1_15]
    rfl
  rw [hcons]
  unfold lineEvent
  rw [hInit, hAdd]
  rfl

theorem splitNLAux_no_newline : ∀ (cs acc : Str), '\n' ∉ cs →
    splitNLAux cs acc = [acc.reverse ++ cs]
  | [], acc, _ => by simp [splitNLAux]
  | c :: rest, acc, h => by
    have hc : ¬ (c = '\n') := fun he => h (he ▸ List.mem_cons_self _ _)
    simp only [splitNLAux, if_neg hc]
    rw [splitNLAux_no_newline rest (c :: acc)
      (fun hm => h (List.mem_cons_of_mem _ hm))]
    simp

theorem splitNL_single (cs : Str) (h : '\n' ∉ cs) : splitNL cs = [cs] := by
  unfold splitNL
  rw [splitNLAux_no_newline cs [] h]
  rfl

/-- Unfolding of `addBatchToItem` when the item is absent. -/
theorem addBatch_notfound (storage : List StockItem) (itemId : Str)
    (batchData : BatchData) (itemUnit today newId : Str)
    (h : storage.find? (fun it => decide (it.id = itemId)) = none) :
    addBatchToItem storage itemId batchData itemUnit today newId =
      (storage, Except.error (strOf "Item not found to add batch")) := by
  unfold addBatchToItem
  rw [h]

/-- Unfolding of `addBatchToItem` for a located item and absent user
note. -/
theorem addBatch_found_noNote (storage : List StockItem) (itemId : Str)
    (q : Int) (expiry supplier : Option Str) (itemUnit today newId : Str)
    (item : StockItem)
    (hitem : storage.find? (fun it => decide (it.id = itemId)) = some item) :
    addBatchToItem storage itemId ⟨q, expiry, supplier, none⟩ itemUnit
        today newId =
      (updateFirst (fun it => decide (it.id = itemId))
        (fun _ => addedItem item q expiry supplier itemUnit today newId)
        storage,
       Except.ok (addedItem item q expiry supplier itemUnit today newId)) := by
  unfold addBatchToItem
  rw [hitem]
  simp [addedItem, addedBatch]

theorem sum_map_updateFirst_first {α : Type} (p : α → Bool) (f : α → α)
    (g : α → Nat) (d : Nat) :
    ∀ (l : List α) (x0 : α), l.find? p = some x0 → g (f x0) = g x0 + d →
      ((updateFirst p f l).map g).sum = (l.map g).sum + d
  | [], x0, hfind, _ => by simp [List.find?] at hfind
  | x :: xs, x0, hfind, hdelta => by
    by_cases hx : p x = true
    · rw [List.find?_cons_of_pos _ hx] at hfind
      obtain rfl : x = x0 := Option.some.inj hfind
      simp only [updateFirst, if_pos hx, List.map_cons, List.sum_cons,
        hdelta]
      omega
    · rw [List.find?_cons_of_neg _ hx] at hfind
      simp only [updateFirst, if_neg hx, List.map_cons, List.sum_cons,
        sum_map_updateFirst_first p f g d xs x0 hfind hdelta]
      omega

theorem filter_updateFirst_comm {α : Type} (p : α → Bool) (f : α → α)
    (hpf : ∀ x, p x = true → p (f x) = true) :
    ∀ l : List α,
      (updateFirst p f l).filter p = updateFirst p f (l.filter p)
  | [] => rfl
  | x :: xs => by
    by_cases hx : p x = true
    · have h1 : updateFirst p f (x :: xs) = f x :: xs := by
        simp [updateFirst, hx]
      rw [h1, List.filter_cons_of_pos (hpf x hx),
        List.filter_cons_of_pos hx]
      show f x :: xs.filter p = updateFirst p f (x :: xs.filter p)
      simp [updateFirst, hx]
    · have h1 : updateFirst p f (x :: xs) = x :: updateFirst p f xs := by
        simp [updateFirst, hx]
      rw [h1, List.filter_cons_of_neg (by simpa using hx),
        List.filter_cons_of_neg (by simpa using hx)]
      exact filter_updateFirst_comm p f hpf xs

theorem find?_filter_self {α : Type} (p : α → Bool) :
    ∀ (l : List α) (x0 : α), l.find? p = some x0 →
      (l.filter p).find? p = some x0
  | [], x0, h => by simp [List.find?] at h
  | x :: xs, x0, h => by
    by_cases hx : p x = true
    · rw [List.find?_cons_of_pos _ hx] at h
      rw [List.filter_cons_of_pos hx, List.find?_cons_of_pos _ hx]
      exact h
    · rw [List.find?_cons_of_neg _ hx] at h
      rw [List.filter_cons_of_neg (by simpa using hx)]
      exact find?_filter_self p xs x0 h

theorem breakdownInQty_le (startD endD : Str) (items : List StockItem)
    (iid : Str) :
    breakdownInQty startD endD items iid ≤
      overallStockInQty startD endD items := by
  unfold breakdownInQty overallStockInQty
  exact List.Sublist.sum_le_sum
    ((items.filter_sublist).map (itemInQty startD endD))
    (fun a _ => Nat.zero_le a)

/-- The freshly created batch contributes exactly one stock-in event of
quantity 15 dated today. -/
theorem batchInEvents_sysNote (today unit newId : Str)
    (expiry supplier : Option Str)
    (htoday : isDateShape today = true) (hunitB : '[' ∉ unit)
    (hunitN : '\n' ∉ unit) :
    batchInEvents today today
      (addedBatch 15 expiry supplier unit today newId) = [15] := by
  have h15 : intStr 15 = strOf "15" := by decide
  set L : Str := strOf "[Stock Addition - " ++ today ++ strOf "]: Added "
    ++ strOf "15" ++ strOf " " ++ unit ++ strOf "." with hL
  have hnl : '\n' ∉ L := by
    rw [hL]
    intro hmem
    simp only [List.mem_append] at hmem
    rcases hmem with ((((((h | h) | h) | h) | h) | h) | h)
    · revert h
      decide
    · exact isDateShape_no_newline htoday h
    · revert h
      decide
    · revert h
      decide
    · revert h
      decide
    · exact hunitN h
    · revert h
      decide
  have hemp : L.isEmpty = false := by
    rw [hL]
    rfl
  have hlines : batchNoteLines
      (addedBatch 15 expiry supplier unit today newId) = [L] := by
    unfold addedBatch batchNoteLines
    rw [h15, trim_sysNote, ← hL]
    show (if L.isEmpty = true then [] else splitNL L) = [L]
    rw [if_neg (by rw [hemp]; simp)]
    exact splitNL_single L hnl
  have hle : lineEvent L = some (true, today, 15) := by
    rw [hL]
    exact lineEvent_sysNote today unit htoday hunitB
  have hrange : inRange today today today = true := by
    unfold inRange
    rw [strLe_refl]
    rfl
  unfold batchInEvents batchEvents
  rw [hlines]
  simp [List.filterMap_cons, hle, hrange]

/-- C8: round-trip between the add-batch mutation and the movement
reconstruction: immediately after an add-batch of quantity 15 (no user
note) on an item, reconstructing over the one-day range `[today, today]`
reports an overall stock-in of 15 in exactly one stock-in transaction, and
the per-item breakdown reports `quantityIn = 15` for that item.
Hypotheses: today is a well-formed `YYYY-MM-DD` string, the item's unit
contains no `[` or newline (so the generated tagged line parses as
itself), and the prior collection shows no stock-in activity dated today. -/
theorem C8_add_batch_roundtrip (storage : List StockItem) (itemId : Str)
    (unit today newId : Str) (expiry supplier : Option Str)
    (storage' : List StockItem) (updated : StockItem)
    (htoday : isDateShape today = true)
    (hunitB : '[' ∉ unit) (hunitN : '\n' ∉ unit)
    (hok : addBatchToItem storage itemId ⟨15, expiry, supplier, none⟩ unit
      today newId = (storage', Except.ok updated))
    (hzeroQ : overallStockInQty today today storage = 0)
    (hzeroT : overallStockInTxns today today storage = 0) :
    overallStockInQty today today storage' = 15 ∧
    overallStockInTxns today today storage' = 1 ∧
    breakdownInQty today today storage' itemId = 15 := by
  cases hfind : storage.find? (fun it => decide (it.id = itemId)) with
  | none =>
    rw [addBatch_notfound storage itemId _ unit today newId hfind] at hok
    exact absurd (congrArg Prod.snd hok) (by simp)
  | some item =>
    rw [addBatch_found_noNote storage itemId 15 expiry supplier unit today
      newId item hfind] at hok
    have hst : storage' = updateFirst (fun it => decide (it.id = itemId))
        (fun _ => addedItem item 15 expiry supplier unit today newId)
        storage :=
      (congrArg Prod.fst hok).symm
    have hnb := batchInEvents_sysNote today unit newId expiry supplier
      htoday hunitB hunitN
    have hdeltaQ : itemInQty today today
        (addedItem item 15 expiry supplier unit today newId) =
        itemInQty today today item + 15 := by
      unfold itemInQty addedItem
      rw [List.map_append, List.sum_append]
      simp [hnb]
    have hdeltaT : itemInTxns today today
        (addedItem item 15 expiry supplier unit today newId) =
        itemInTxns today today item + 1 := by
      unfold itemInTxns addedItem
      rw [List.map_append, List.sum_append]
      simp [hnb]
    have hiid : item.id = itemId := by
      have h := List.find?_some hfind
      simpa using h
    have hQ : overallStockInQty today today storage' =
        overallStockInQty today today storage + 15 := by
      rw [hst]
      unfold overallStockInQty
      exact sum_map_updateFirst_first _ _ (itemInQty today today) 15
        storage item hfind hdeltaQ
    have hT : overallStockInTxns today today storage' =
        overallStockInTxns today today storage + 1 := by
      rw [hst]
      unfold overallStockInTxns
      exact sum_map_updateFirst_first _ _ (itemInTxns today today) 1
        storage item hfind hdeltaT
    have hBk : breakdownInQty today today storage' itemId =
        breakdownInQty today today storage itemId + 15 := by
      rw [hst]
      unfold breakdownInQty
      rw [filter_updateFirst_comm (fun it => decide (it.id = itemId))
        (fun _ => addedItem item 15 expiry supplier unit today newId)
        (fun x hx => decide_eq_true hiid) storage]
      exact sum_map_updateFirst_first _ _ (itemInQty today today) 15
        _ item (find?_filter_self _ storage item hfind) hdeltaQ
    have hBk0 : breakdownInQty today today storage itemId = 0 :=
      Nat.le_zero.mp (hzeroQ ▸ breakdownInQty_le today today storage itemId)
    refine ⟨?_, ?_, ?_⟩
    · rw [hQ, hzeroQ]
    · rw [hT, hzeroT]
    · rw [hBk, hBk0]

/-- Witness for C8 at a concrete add-batch of 15. -/
theorem C8_add_batch_roundtrip_witness :
    (isDateShape (strOf "2025-06-01") = true ∧
     '[' ∉ strOf "box" ∧ '\n' ∉ strOf "box" ∧
     (addBatchToItem [c4Before] (strOf "A") ⟨15, none, none, none⟩
        (strOf "box") (strOf "2025-06-01") (strOf "a2") =
       ([c8After], Except.ok c8After)) ∧
     overallStockInQty (strOf "2025-06-01") (strOf "2025-06-01")
       [c4Before] = 0 ∧
     overallStockInTxns (strOf "2025-06-01") (strOf "2025-06-01")
       [c4Before] = 0) ∧
    (overallStockInQty (strOf "2025-06-01") (strOf "2025-06-01")
        [c8After] = 15 ∧
     overallStockInTxns (strOf "2025-06-01") (strOf "2025-06-01")
        [c8After] = 1 ∧
     breakdownInQty (strOf "2025-06-01") (strOf "2025-06-01") [c8After]
        (strOf "A") = 15) :=
  ⟨⟨by decide, by decide, by decide, by rfl, by decide, by decide⟩,
   C8_add_batch_roundtrip [c4Before] (strOf "A") (strOf "box")
     (strOf "2025-06-01") (strOf "a2") none none [c8After] c8After
     (by decide) (by decide) (by decide) (by rfl) (by decide) (by decide)⟩

end StockEMC

